import Mathlib

/-!
dnsproxy-go: cache trie, message helpers and worker pool.

A shallow embedding of `cache.go`, `dnsutil.go`, `error.go`, `worker.go`,
`server.go` and `resolver.go` of the dnsproxy package, followed by theorems
about it.

Conventions of the embedding.
* A Go `string` is a sequence of bytes, `GoString`; its rune sequence
  (`[]rune(s)`, and what `for _, c := range s` visits) is `toRunes s`, in which
  every byte that is not part of a valid UTF-8 sequence is the rune U+FFFD.
  A Go string that is valid UTF-8 is also written as a Lean `String`, whose
  rune sequence is `s.data` (`toRunes_utf8Bytes`); the trie operations come in
  both forms (`Trie.Find` on a `String`, `Trie.FindBytes` on a `GoString`), and
  they agree on valid UTF-8 (`Trie.FindBytes_utf8Bytes`).
* A pointer-linked, mutated structure is a value, and an operation that
  mutates it returns the new value.
* A Go map `map[K]*V` is a function `K → Option V`; `none` is the missing /
  nil entry (`m[k] == nil`).
* A run-time panic is the result `none` of an `Option`-valued function, or
  `Outcome.panic`.
* A loop or recursion without a bound in the source takes fuel in the model;
  using up the fuel is a result of its own (`none`, or `Outcome.outOfFuel`), so
  that "the code returns" is the statement that enough fuel gives a result.
* The network and the clock are inputs: functions of the number of calls made
  so far.
-/

namespace Dnsproxy

/-! ## cache.go: the trie -/

/-- The struct `Trie` of cache.go: `IsLeaf`, `Next` and `Data`.  `Data` is a Go
`interface{}`: `none` is the nil interface, `some v` a non-nil dynamic value.
The `Next` map is always allocated, as `NewTrie` is the only constructor the
package uses. -/
inductive Trie (α : Type) where
  | mk (IsLeaf : Bool) (Next : Char → Option (Trie α)) (Data : Option α) : Trie α

/-- The function `NewTrie`: not a leaf, an empty `Next` map, nil `Data`. -/
def NewTrie {α : Type} : Trie α :=
  Trie.mk false (fun _ => none) none

/-- The loop of `reverseString` on the rune slice `r`: while `i < j`, `r[i]` and
`r[j]` are swapped, `i` goes up and `j` down.  `fuel` bounds the number of rounds;
an index out of range (which does not occur) would end the loop. -/
def reverseString.loop : Nat → List Char → Int → Int → List Char
  | 0, r, _, _ => r
  | fuel + 1, r, i, j =>
      if i < j then
        match r[i.toNat]?, r[j.toNat]? with
        | some a, some b =>
            reverseString.loop fuel ((r.set i.toNat b).set j.toNat a) (i + 1) (j - 1)
        | _, _ => r
      else r

/-- The function `reverseString` on a string that is valid UTF-8: the slice
`[]rune(s)`, the swap loop from `i = 0` and `j = len(r) - 1`, and the string of the
result.  The loop makes fewer than `len(r)` rounds.  `reverseStringBytes` is the
function on an arbitrary Go string. -/
def reverseString (s : String) : String :=
  String.mk (reverseString.loop s.data.length s.data 0 ((s.data.length : Int) - 1))

/-- The loop of `Trie.Insert` over the runes of the reversed key: a missing child
is created by `NewTrie`; the node reached at the end gets `IsLeaf = true` and
`Data = data`. -/
def Trie.insertWord {α : Type} : List Char → Trie α → Option α → Trie α
  | [], Trie.mk _ next _, data => Trie.mk true next data
  | c :: cs, Trie.mk leaf next d, data =>
      let child : Trie α :=
        match next c with
        | none => NewTrie
        | some n => n
      Trie.mk leaf (Function.update next c (some (Trie.insertWord cs child data))) d

/-- The method `Trie.Insert` (and `Trie.Add`, which only calls it). -/
def Trie.Insert {α : Type} (t : Trie α) (name : String) (data : Option α) : Trie α :=
  Trie.insertWord (reverseString name).data t data

/-- The loop of `Trie.remove`: when a child on the path is missing nothing is
changed (`found = false; break`); at the node reached, `Data` is set to nil when
`IsLeaf` holds.  `IsLeaf` itself is never written. -/
def Trie.removeWord {α : Type} : List Char → Trie α → Trie α
  | [], Trie.mk leaf next d => if leaf then Trie.mk leaf next none else Trie.mk leaf next d
  | c :: cs, Trie.mk leaf next d =>
      match next c with
      | none => Trie.mk leaf next d
      | some n => Trie.mk leaf (Function.update next c (some (Trie.removeWord cs n))) d

/-- The method `Trie.remove`. -/
def Trie.remove {α : Type} (t : Trie α) (name : String) : Trie α :=
  Trie.removeWord (reverseString name).data t

/-- The method `Trie.Delete`: `remove` under the lock. -/
def Trie.Delete {α : Type} (t : Trie α) (name : String) : Trie α :=
  t.remove name

/-- The loop of `Trie.find`: `(nil, false)` when a child on the path is missing
or the node reached is not a leaf, `(node.Data, true)` otherwise. -/
def Trie.findWord {α : Type} : List Char → Trie α → Option α × Bool
  | [], Trie.mk leaf _ d => if leaf then (d, true) else (none, false)
  | c :: cs, Trie.mk _ next _ =>
      match next c with
      | none => (none, false)
      | some n => Trie.findWord cs n

/-- The method `Trie.find`. -/
def Trie.find {α : Type} (t : Trie α) (name : String) : Option α × Bool :=
  Trie.findWord (reverseString name).data t

/-- The method `Trie.Find`: `find` under the read lock. -/
def Trie.Find {α : Type} (t : Trie α) (name : String) : Option α × Bool :=
  t.find name

/-- The trie after a sequence of `Insert` calls, first call first. -/
def Trie.insertAll {α : Type} (t : Trie α) (ops : List (String × Option α)) : Trie α :=
  ops.foldl (fun acc op => acc.Insert op.1 op.2) t

/-! ## cache.go: the trie on keys that are arbitrary Go strings -/

/-- A Go `string`: its bytes, each below 256.  Nothing requires the bytes to be
valid UTF-8. -/
abbrev GoString := List Nat

/-- The rune `utf8.RuneError`, U+FFFD, which stands for every byte that is not
part of a valid UTF-8 sequence. -/
def RuneError : Char := Char.ofNat 0xFFFD

/-- Modelled from the Go language specification and `utf8.DecodeRuneInString` of
the standard library (not in src/): the first rune of a string and its width in
bytes.  A byte below 0x80 is its own rune; a leading byte 0xC2..0xDF, 0xE0..0xEF
or 0xF0..0xF4 followed by one, two or three continuation bytes in the accepted
ranges is a rune of width 2, 3 or 4; every other byte is `RuneError` of width 1.
The second byte is accepted in 0x80..0xBF, but from 0xA0 after 0xE0, up to 0x9F
after 0xED, from 0x90 after 0xF0 and up to 0x8F after 0xF4. -/
def decodeRune : GoString → Char × Nat
  | [] => (RuneError, 0)
  | s0 :: rest =>
      if s0 < 0x80 then (Char.ofNat s0, 1)
      else if s0 < 0xC2 then (RuneError, 1)
      else if s0 < 0xE0 then
        match rest with
        | s1 :: _ =>
            if 0x80 ≤ s1 ∧ s1 ≤ 0xBF then (Char.ofNat ((s0 - 0xC0) * 64 + (s1 - 0x80)), 2)
            else (RuneError, 1)
        | _ => (RuneError, 1)
      else if s0 < 0xF0 then
        match rest with
        | s1 :: s2 :: _ =>
            if (if s0 = 0xE0 then 0xA0 else 0x80) ≤ s1
                ∧ s1 ≤ (if s0 = 0xED then 0x9F else 0xBF) then
              if 0x80 ≤ s2 ∧ s2 ≤ 0xBF then
                (Char.ofNat ((s0 - 0xE0) * 4096 + (s1 - 0x80) * 64 + (s2 - 0x80)), 3)
              else (RuneError, 1)
            else (RuneError, 1)
        | _ => (RuneError, 1)
      else if s0 < 0xF5 then
        match rest with
        | s1 :: s2 :: s3 :: _ =>
            if (if s0 = 0xF0 then 0x90 else 0x80) ≤ s1
                ∧ s1 ≤ (if s0 = 0xF4 then 0x8F else 0xBF) then
              if 0x80 ≤ s2 ∧ s2 ≤ 0xBF then
                if 0x80 ≤ s3 ∧ s3 ≤ 0xBF then
                  (Char.ofNat ((s0 - 0xF0) * 262144 + (s1 - 0x80) * 4096 + (s2 - 0x80) * 64
                    + (s3 - 0x80)), 4)
                else (RuneError, 1)
              else (RuneError, 1)
            else (RuneError, 1)
        | _ => (RuneError, 1)
      else (RuneError, 1)

/-- The decoding loop of `[]rune(s)` and of `range s`: a rune is decoded at the
current byte, and the loop goes on after the bytes of that rune; `skip` counts the
bytes of the last rune still to pass. -/
def toRunes.go : Nat → GoString → List Char
  | _, [] => []
  | skip + 1, _ :: rest => toRunes.go skip rest
  | 0, b :: rest => (decodeRune (b :: rest)).1 :: toRunes.go ((decodeRune (b :: rest)).2 - 1) rest

/-- The conversion `[]rune(s)`; `for _, c := range s` visits the same runes. -/
def toRunes (s : GoString) : List Char :=
  toRunes.go 0 s

/-- Modelled from the Go language specification (not in src/): the UTF-8 bytes of
a rune, as the conversion `string(r)` of a rune slice writes them. -/
def encodeRune (c : Char) : GoString :=
  if c.toNat < 0x80 then [c.toNat]
  else if c.toNat < 0x800 then [0xC0 + c.toNat / 64, 0x80 + c.toNat % 64]
  else if c.toNat < 0x10000 then
    [0xE0 + c.toNat / 4096, 0x80 + c.toNat / 64 % 64, 0x80 + c.toNat % 64]
  else
    [0xF0 + c.toNat / 262144, 0x80 + c.toNat / 4096 % 64, 0x80 + c.toNat / 64 % 64,
     0x80 + c.toNat % 64]

/-- The conversion `string(r)` of a rune slice: the UTF-8 bytes of its runes. -/
def runesToString (r : List Char) : GoString :=
  r.flatMap encodeRune

/-- The bytes of a string that is valid UTF-8, given by its runes. -/
def utf8Bytes (s : String) : GoString :=
  runesToString s.data

/-- The function `reverseString` on an arbitrary Go string: the slice `[]rune(s)`,
the swap loop, and the string of the result. -/
def reverseStringBytes (s : GoString) : GoString :=
  runesToString (reverseString.loop (toRunes s).length (toRunes s) 0
    (((toRunes s).length : Int) - 1))

/-- The method `Trie.Insert` on an arbitrary Go string: the loop ranges over the
runes of the reversed key. -/
def Trie.InsertBytes {α : Type} (t : Trie α) (name : GoString) (data : Option α) : Trie α :=
  Trie.insertWord (toRunes (reverseStringBytes name)) t data

/-- The methods `Trie.remove` and `Trie.Delete` on an arbitrary Go string. -/
def Trie.DeleteBytes {α : Type} (t : Trie α) (name : GoString) : Trie α :=
  Trie.removeWord (toRunes (reverseStringBytes name)) t

/-- The methods `Trie.find` and `Trie.Find` on an arbitrary Go string. -/
def Trie.FindBytes {α : Type} (t : Trie α) (name : GoString) : Option α × Bool :=
  Trie.findWord (toRunes (reverseStringBytes name)) t

/-- The trie after a sequence of `Insert` calls on arbitrary Go strings, first call
first. -/
def Trie.insertAllBytes {α : Type} (t : Trie α) (ops : List (GoString × Option α)) :
    Trie α :=
  ops.foldl (fun acc op => acc.InsertBytes op.1 op.2) t

/-! ## The message type of the `dns` library, as far as the package reads it -/

/-- The struct `dns.RR_Header`: the fields common to every resource record. -/
structure RR_Header where
  Name : String
  Rrtype : Nat
  Class : Nat
  Ttl : Nat
  Rdlength : Nat
deriving DecidableEq, Repr

/-- The dynamic Go type of a resource record and the fields the package reads
from it: `*dns.A`, `*dns.NS`, `*dns.CNAME`, or another record type. -/
inductive RData where
  | A (a : String)
  | NS (ns : String)
  | CNAME (target : String)
  | other
deriving DecidableEq, Repr

/-- A non-nil `dns.RR`: its header (what `Header()` returns) and its body.  The
header's `Rrtype` is a field of its own, independent of the dynamic type. -/
structure RR where
  Hdr : RR_Header
  body : RData
deriving DecidableEq, Repr

/-- The struct `dns.Question`. -/
structure Question where
  Name : String
  Qtype : Nat
  Qclass : Nat
deriving DecidableEq, Repr

/-- The struct `dns.Msg` (`MsgHdr`, `Compress` and the four sections).  A section
is a slice of `dns.RR` interface values, so an entry may be nil (`none`). -/
structure Msg where
  Id : Nat
  Response : Bool
  Opcode : Int
  Authoritative : Bool
  Truncated : Bool
  RecursionDesired : Bool
  RecursionAvailable : Bool
  Zero : Bool
  AuthenticatedData : Bool
  CheckingDisabled : Bool
  Rcode : Int
  Compress : Bool
  Question : List Question
  Answer : List (Option RR)
  Ns : List (Option RR)
  Extra : List (Option RR)
deriving DecidableEq, Repr

/-- The constant `dns.RcodeSuccess`. -/
def RcodeSuccess : Int := 0
/-- The constant `dns.RcodeNameError` (NXDOMAIN). -/
def RcodeNameError : Int := 3

/-- The constant `dns.TypeA`. -/
def TypeA : Nat := 1
/-- The constant `dns.TypeNS`. -/
def TypeNS : Nat := 2
/-- The constant `dns.TypeCNAME`. -/
def TypeCNAME : Nat := 5
/-- The constant `dns.TypeSOA`. -/
def TypeSOA : Nat := 6
/-- The constant `dns.TypePTR`. -/
def TypePTR : Nat := 12
/-- The constant `dns.TypeAAAA`. -/
def TypeAAAA : Nat := 28

/-! ## Time: `time.Time` and `time.Duration` -/

/-- A `time.Duration`: a signed 64-bit count of nanoseconds. -/
abbrev Duration := Int

/-- A `time.Time`, as nanoseconds since a fixed epoch. -/
abbrev Time := Int

/-- The constant `time.Second`, in nanoseconds. -/
def Second : Duration := 1000000000

/-- The largest `time.Duration`. -/
def maxDuration : Duration := 2 ^ 63 - 1
/-- The smallest `time.Duration`. -/
def minDuration : Duration := -(2 ^ 63)

/-- The method `Time.Add`. -/
def Time.Add (t : Time) (d : Duration) : Time := t + d

/-- The method `Time.Sub`: the difference `t - u`, which saturates at the largest
and smallest duration. -/
def Time.Sub (t u : Time) : Duration :=
  if t - u > maxDuration then maxDuration
  else if t - u < minDuration then minDuration
  else t - u

/-- The method `Time.After`: `t` is strictly later than `u`. -/
def Time.After (t u : Time) : Bool := decide (u < t)

/-- The Go conversion `uint32(d)` of a 64-bit integer: the low 32 bits. -/
def toUint32 (d : Int) : Nat := (d % 2 ^ 32).toNat

/-! ## cache.go: records and `Get` -/

/-- The struct `Record`: the expiry timestamp and the message. -/
structure Record where
  Expired : Time
  Msg : Msg
deriving DecidableEq, Repr

/-- The function `NewRecord`, with `now` the reading of `time.Now()`.  The Go
result `(nil, false)` is `some none`, `(r, true)` is `some (some r)`, and the
panic of `msg.Answer[0].Header()` on a nil first answer is `none`. -/
def NewRecord (msg : Msg) (now : Time) : Option (Option Record) :=
  match msg.Answer with
  | [] => some none
  | none :: _ => none
  | some rr :: _ =>
      let ttl : Duration := (rr.Hdr.Ttl : Int) * Second
      some (some { Expired := Time.Add now ttl, Msg := msg })

/-- The method `Record.IsExpired`, with `now` the reading of `time.Now()`. -/
def Record.IsExpired (r : Record) (now : Time) : Bool :=
  Time.After now r.Expired

/-- The function `updateTTLOf`: writes `ttl` into the header of every record of the
slice; `none` is the panic of `Header()` on a nil entry. -/
def updateTTLOf : List (Option RR) → Nat → Option (List (Option RR))
  | [], _ => some []
  | none :: _, _ => none
  | some rr :: rest, ttl =>
      match updateTTLOf rest ttl with
      | none => none
      | some rest1 => some (some { rr with Hdr := { rr.Hdr with Ttl := ttl } } :: rest1)

/-- A dynamic value stored in the trie of the server: a non-nil `*Record`, or a
value of another type (a string, as in the test of the trie). -/
inductive Value where
  | record (r : Record)
  | other (s : String)
deriving DecidableEq, Repr

/-- The effect on the trie of mutating, through its pointer, the record stored at
an existing node: the node on the path of the word gets the new `Data`; `IsLeaf`
and `Next` are untouched, and a missing path changes nothing. -/
def Trie.writeWord {α : Type} : List Char → Trie α → Option α → Trie α
  | [], Trie.mk leaf next _, data => Trie.mk leaf next data
  | c :: cs, Trie.mk leaf next d, data =>
      match next c with
      | none => Trie.mk leaf next d
      | some n => Trie.mk leaf (Function.update next c (some (Trie.writeWord cs n data))) d

/-- The method `Trie.Get`, with `now1` and `now2` the two successive readings of
`time.Now()` (in `IsExpired` and in `Expired.Sub`).  The result is the trie
afterwards and the Go result: `none` for `(nil, false)`, `some r` for
`(r, true)`.  The outer `none` is a panic of `updateTTLOf`.  The record is held
by pointer, so the rewritten TTLs are also those of the record in the trie. -/
def Trie.Get (t : Trie Value) (name : String) (now1 now2 : Time) :
    Option (Trie Value × Option Record) :=
  match t.find name with
  | (_, false) => some (t, none)
  | (none, true) => some (t, none)
  | (some (Value.other _), true) => some (t, none)
  | (some (Value.record r), true) =>
      if r.IsExpired now1 then some (t.remove name, none)
      else
        let ttl := toUint32 (Time.Sub r.Expired now2)
        match updateTTLOf r.Msg.Answer ttl with
        | none => none
        | some an =>
          match updateTTLOf r.Msg.Ns ttl with
          | none => none
          | some ns =>
            match updateTTLOf r.Msg.Extra ttl with
            | none => none
            | some ex =>
              let r1 : Record :=
                { r with Msg := { r.Msg with Answer := an, Ns := ns, Extra := ex } }
              some (Trie.writeWord (reverseString name).data t (some (Value.record r1)), some r1)

/-- A query-shaped message: the given id and question, empty sections. -/
def queryMsg (id : Nat) (q : Question) : Msg :=
  { Id := id, Response := false, Opcode := 0, Authoritative := false, Truncated := false,
    RecursionDesired := true, RecursionAvailable := false, Zero := false,
    AuthenticatedData := false, CheckingDisabled := false, Rcode := 0, Compress := false,
    Question := [q], Answer := [], Ns := [], Extra := [] }

/-- An address record for `name` with the given TTL. -/
def RR.a (name : String) (ttl : Nat) (ip : String) : RR :=
  { Hdr := { Name := name, Rrtype := TypeA, Class := 1, Ttl := ttl, Rdlength := 4 },
    body := RData.A ip }

/-- A name-server record for `name` with the given TTL. -/
def RR.ns (name : String) (ttl : Nat) (host : String) : RR :=
  { Hdr := { Name := name, Rrtype := TypeNS, Class := 1, Ttl := ttl, Rdlength := 0 },
    body := RData.NS host }

/-- A response to an A query for `example.com.` with one answer of TTL 300. -/
def exampleMsg : Msg :=
  { queryMsg 7 { Name := "example.com.", Qtype := TypeA, Qclass := 1 } with
    Response := true,
    Answer := [some (RR.a "example.com." 300 "93.184.216.34")] }

/-! ## dnsutil.go -/

/-- The `for` loop of `GotAnswer` over `msg.Answer`: `some true` when the loop
returns true, `some false` when it runs to its end, and `none` for the panic of
`msg.Question[0]` on an empty question section.  A nil answer is skipped. -/
def GotAnswer.loop (qs : List Question) : List (Option RR) → Option Bool
  | [] => some false
  | none :: rest => GotAnswer.loop qs rest
  | some an :: rest =>
      match qs with
      | [] => none
      | q :: _ => if an.Hdr.Rrtype = q.Qtype then some true else GotAnswer.loop qs rest

/-- The function `GotAnswer`; `none` is a panic. -/
def GotAnswer (msg : Msg) : Option Bool :=
  match GotAnswer.loop msg.Question msg.Answer with
  | none => none
  | some true => some true
  | some false =>
      if msg.Answer.length = 0 ∧ msg.Ns.length = 1 then
        match msg.Ns with
        | some ns :: _ => some (decide (ns.Hdr.Rrtype = TypeSOA))
        | _ => some false
      else some false

/-- The function `getQuetion`: the cache key of a message.  `lower` stands for
`strings.ToLower` and `typeToString` for the table `dns.TypeToString` (a missing
entry reads as the empty string); `none` is the panic of `msg.Question[0]`. -/
def getQuetion (lower : String → String) (typeToString : Nat → String) (msg : Msg) :
    Option String :=
  match msg.Question with
  | [] => none
  | q :: _ => some (lower (typeToString q.Qtype) ++ "." ++ q.Name)

/-- Lower-casing of the ASCII letters of a string; `strings.ToLower` does this on
ASCII strings. -/
def asciiLower (s : String) : String :=
  String.mk (s.data.map Char.toLower)

/-- The entries of `dns.TypeToString` for the record types named above. -/
def typeMnemonic (t : Nat) : String :=
  if t = TypeA then "A"
  else if t = TypeNS then "NS"
  else if t = TypeCNAME then "CNAME"
  else if t = TypeSOA then "SOA"
  else if t = TypePTR then "PTR"
  else if t = TypeAAAA then "AAAA"
  else ""

/-! ## worker.go and server.go -/

/-- The struct `userPacket`: the datagram and the address of the client. -/
structure userPacket where
  data : List Nat
  addr : String
deriving DecidableEq, Repr

/-- The struct `Config`. -/
structure Config where
  Addr : String
  UpServers : List String
  WithCache : Bool
  CacheFile : String
  WorkerPoolMin : Int
  WorkerPoolMax : Int
deriving DecidableEq, Repr

/-- The value of a Go `int` (64 bits, two's complement) after an arithmetic result
`x` has wrapped around. -/
def wrapInt (x : Int) : Int :=
  (x + 2 ^ 63) % 2 ^ 64 - 2 ^ 63

/-- The method `Config.check`. -/
def Config.check (cfg : Config) : Config :=
  let cfg1 := if cfg.WorkerPoolMin < 1 then { cfg with WorkerPoolMin := 1 } else cfg
  if cfg1.WorkerPoolMax < cfg1.WorkerPoolMin then
    { cfg1 with WorkerPoolMax := wrapInt (cfg1.WorkerPoolMin + 10) }
  else cfg1

/-- The struct `worker`, as far as it is data: the cache switch and the upstream
servers its resolver was created with. -/
structure worker where
  withCache : Bool
  upServers : List String
deriving DecidableEq, Repr

/-- The function `newWorker`. -/
def newWorker (cfg : Config) : worker :=
  { withCache := cfg.WithCache, upServers := cfg.UpServers }

/-- The writes of `worker.send` to the header of the message, before `msg.Pack()`:
`Response`, `Rcode` (by the length of the answer section) and `RecursionAvailable`. -/
def worker.send.header (msg : Msg) : Msg :=
  let m1 : Msg := { msg with Response := true }
  let m2 : Msg := { m1 with Rcode := RcodeSuccess }
  let m3 : Msg := if m2.Answer.length = 0 then { m2 with Rcode := RcodeNameError } else m2
  { m3 with RecursionAvailable := true }

/-- The method `worker.send`, with `pack` standing for `msg.Pack()`.  `Pack` works on
the message through its pointer and writes to it: it stores the length of the
packed data of every record it packs in the `Hdr.Rdlength` of that record.  So
`pack` gives the message as `Pack` leaves it, and the bytes (`none` is the
error).  The result is the message after `send` and the packet put on the send
channel, if any. -/
def worker.send (pack : Msg → Msg × Option (List Nat)) (pkt : userPacket) (msg : Msg) :
    Msg × Option userPacket :=
  match pack (worker.send.header msg) with
  | (m5, none) => (m5, none)
  | (m5, some data) => (m5, some { pkt with data := data })

/-- A record with its `Hdr.Rdlength` set to zero: two records are the same but for
`Rdlength` when this gives the same record for both. -/
def RR.eraseRdlength (rr : Option RR) : Option RR :=
  rr.map (fun r => { r with Hdr := { r.Hdr with Rdlength := 0 } })

/-- A message with the `Hdr.Rdlength` of every record set to zero: two messages are
the same but for the `Rdlength` of their records when this gives the same message
for both. -/
def Msg.eraseRdlength (m : Msg) : Msg :=
  { m with Answer := m.Answer.map RR.eraseRdlength, Ns := m.Ns.map RR.eraseRdlength,
           Extra := m.Extra.map RR.eraseRdlength }

/-- The method `worker.resolveCache` on the cache `cache` of the server, with the
two clock readings of `Trie.Get`.  The result is the cache afterwards, the
message and the flag; `none` is a panic. -/
def worker.resolveCache (lower : String → String) (typeToString : Nat → String)
    (cache : Trie Value) (msg : Msg) (now1 now2 : Time) : Option (Trie Value × Msg × Bool) :=
  match getQuetion lower typeToString msg with
  | none => none
  | some key =>
      match cache.Get key now1 now2 with
      | none => none
      | some (cache1, none) => some (cache1, msg, false)
      | some (cache1, some r) =>
          let msg1 : Msg := { msg with Answer := r.Msg.Answer }
          some (cache1, msg1, decide (msg1.Answer.length > 0))

/-- One round of the loop of `server.cacheMsg` for a received `msg`, with `now` the
clock reading of `NewRecord`: the cache afterwards; `none` is a panic. -/
def server.cacheMsg (lower : String → String) (typeToString : Nat → String)
    (cache : Trie Value) (msg : Msg) (now : Time) : Option (Trie Value) :=
  match NewRecord msg now with
  | none => none
  | some none => some cache
  | some (some r) =>
      match getQuetion lower typeToString msg with
      | none => none
      | some key => some (cache.Insert key (some (Value.record r)))

/-- The struct `workerPool`: the stack of workers (an `hqu.Stack`, a LIFO whose top
is the head of the list) and the bounds `min` and `max`. -/
structure workerPool where
  workers : List worker
  min : Int
  max : Int
deriving DecidableEq, Repr

/-- The loop `for i := 0; i < n; i++ { p.workers.Push(newWorker(s)) }`, with
`fuel` the number of rounds still allowed. -/
def newWorkerPool.loop (cfg : Config) : Nat → Int → List worker → List worker
  | 0, _, ws => ws
  | fuel + 1, i, ws =>
      if i < cfg.WorkerPoolMin then newWorkerPool.loop cfg fuel (i + 1) (newWorker cfg :: ws)
      else ws

/-- The function `newWorkerPool`; the loop runs at most `WorkerPoolMin` rounds. -/
def newWorkerPool (cfg : Config) : workerPool :=
  { workers := newWorkerPool.loop cfg cfg.WorkerPoolMin.toNat 0 [],
    min := cfg.WorkerPoolMin,
    max := cfg.WorkerPoolMax }

/-- The method `workerPool.size`. -/
def workerPool.size (wp : workerPool) : Int :=
  (wp.workers.length : Int)

/-- The method `workerPool.openOne`. -/
def workerPool.openOne (cfg : Config) (wp : workerPool) : workerPool :=
  if wp.size < wp.max then { wp with workers := newWorker cfg :: wp.workers } else wp

/-- The method `workerPool.closeOne`: the popped worker is closed and dropped. -/
def workerPool.closeOne (wp : workerPool) : workerPool :=
  if wp.size > wp.min then { wp with workers := wp.workers.tail } else wp

/-- The struct `server`, as far as `recv` uses it: the configuration and the pool. -/
structure server where
  config : Config
  pool : workerPool
deriving DecidableEq, Repr

/-- The server that `Start` builds from a configuration: `check`, then the pool. -/
def server.start (cfg : Config) : server :=
  { config := cfg.check, pool := newWorkerPool cfg.check }

/-- The method `server.recv` after the packet has been put on the receive channel.
`d1` and `d2` are the values of `len(s.recvChan)` read by the first and by the
second comparison (workers take packets off the channel concurrently). -/
def server.recv (s : server) (d1 d2 : Int) : server :=
  if d1 > s.config.WorkerPoolMin then { s with pool := s.pool.openOne s.config }
  else if d2 < s.config.WorkerPoolMin then { s with pool := s.pool.closeOne }
  else s

/-- A call on the pool: `openOne` or `closeOne`. -/
inductive poolOp where
  | openOne
  | closeOne
deriving DecidableEq, Repr

/-- The pool after one call. -/
def workerPool.step (cfg : Config) (wp : workerPool) : poolOp → workerPool
  | poolOp.openOne => wp.openOne cfg
  | poolOp.closeOne => wp.closeOne

/-- The pool after a sequence of calls, first call first. -/
def workerPool.run (cfg : Config) (wp : workerPool) (ops : List poolOp) : workerPool :=
  ops.foldl (workerPool.step cfg) wp

/-! ## error.go and the rest of dnsutil.go -/

/-- The Go `error` values the package tells apart: its own predefined errors,
`dns.ErrBuf` and `dns.ErrTruncated` of the library, and any other error. -/
inductive Error where
  | ErrNotFound
  | ErrServerFailed
  | ErrInvalidResponse
  | ErrUnexpectedResp
  | ErrHugePacket
  | ErrCyclicCNAME
  | ErrBuf
  | ErrTruncated
  | other (text : String)
deriving DecidableEq, Repr

/-- How a call of a function that may loop or fail at run time ends: it returns,
it panics, or the fuel given to its model is used up before it returns. -/
inductive Outcome (α : Type) where
  | ok (a : α)
  | panic
  | outOfFuel
deriving DecidableEq, Repr

/-- The loop of `FindNS` over `msg.Ns`: the names of the records whose header type
is NS and whose Go type is `*dns.NS`; `none` is the panic of `n.Header()` on a nil
record. -/
def FindNS.loop : List (Option RR) → Option (List String)
  | [] => some []
  | none :: _ => none
  | some n :: rest =>
      match FindNS.loop rest with
      | none => none
      | some ns =>
          if n.Hdr.Rrtype = TypeNS then
            match n.body with
            | RData.NS x => some (x :: ns)
            | _ => some ns
          else some ns

/-- The function `FindNS`: `(nil, false)` is `some none`, `(ns, true)` is
`some (some ns)`, and `none` is a panic. -/
def FindNS (msg : Msg) : Option (Option (List String)) :=
  if msg.Answer.length > 0 then some none
  else
    match FindNS.loop msg.Ns with
    | none => none
    | some ns => some (some ns)

/-- The function `FindNSExtras`: `(nil, false)` is `none`.  The panic of `msg.Copy()`
on a message with a nil record has no value here: the one call of the function
is in the branch of `iterativeResolver.resolve` under `ir.isNS`. -/
def FindNSExtras (msg : Msg) : Option Msg :=
  if msg.Authoritative ∧ msg.Extra.length > 0 then some { msg with Answer := msg.Extra }
  else none

/-- The write `x[k] = v` on a Go map held as a list of entries with distinct keys. -/
def mapSet (x : List (String × String)) (k v : String) : List (String × String) :=
  (k, v) :: x.filter (fun e => e.1 ≠ k)

/-- The first loop of `FindCname`: the map `x` from owner name to target, filled from
the records whose header type is CNAME and whose Go type is `*dns.CNAME`; nil
records are skipped. -/
def FindCname.table : List (Option RR) → List (String × String) → List (String × String)
  | [], x => x
  | none :: rest, x => FindCname.table rest x
  | some an :: rest, x =>
      if an.Hdr.Rrtype ≠ TypeCNAME then FindCname.table rest x
      else
        match an.body with
        | RData.CNAME target => FindCname.table rest (mapSet x an.Hdr.Name target)
        | _ => FindCname.table rest x

/-- The second loop of `FindCname`, `for { ... }`: while `queryName` is a key of `x`
it is replaced by its target.  `none` means that the fuel is used up and the
loop has not returned. -/
def FindCname.follow : Nat → List (String × String) → String → Option String
  | 0, _, _ => none
  | fuel + 1, x, queryName =>
      match x.lookup queryName with
      | some target => FindCname.follow fuel x target
      | none => some queryName

/-- The function `FindCname`, with fuel for its second loop; the panic is that of
`msg.Question[0]`. -/
def FindCname (fuel : Nat) (msg : Msg) : Outcome (String × Bool) :=
  let x := FindCname.table (msg.Answer ++ msg.Ns) []
  if x.length = 0 then Outcome.ok ("", false)
  else
    match msg.Question with
    | [] => Outcome.panic
    | q :: _ =>
        match FindCname.follow fuel x q.Name with
        | none => Outcome.outOfFuel
        | some n => Outcome.ok (n, true)

/-! ## resolver.go: the transport -/

/-- The variable `upDNS`. -/
def upDNS : List String := ["8.8.8.8"]

/-- The constant `cnameLimit`. -/
def cnameLimit : Int := 7
/-- The constant `iterLimit`. -/
def iterLimit : Int := 7
/-- The constant `timeout`: ten seconds. -/
def timeout : Duration := Second * 10

/-- The struct `resolver`: the worker it belongs to, the upstream servers to which a
UDP connection was opened (`conns`), `servers` and `ts`. -/
structure resolver where
  worker : worker
  conns : List String
  servers : List String
  ts : Time
deriving DecidableEq, Repr

/-- The function `newResolver`, with `now` the reading of `time.Now()` and `dial s`
telling whether `net.ResolveUDPAddr` and `net.DialUDP` succeed for server `s`.
The result is the `resolver` inside the `recursiveResolver` that is returned. -/
def newResolver (dial : String → Bool) (w : worker) (upServers : List String) (now : Time) :
    resolver :=
  let r : resolver := { worker := w, conns := [], servers := upServers, ts := now }
  let upServers1 : List String :=
    if upServers.length = 0 then upDNS
    else if upServers.length > 3 then upServers.take 3
    else upServers
  { r with conns := upServers1.filter dial }

/-- The method `resolver.isTimeout`, with `now` the reading of the clock by
`time.Since`. -/
def resolver.isTimeout (r : resolver) (now : Time) : Bool :=
  decide (Time.Sub now r.ts > timeout)

/-- The Go expression `make([]byte, n)`: `n` zero bytes. -/
def makeBytes (n : Nat) : List Nat := List.replicate n 0

/-- A `resolvingHandleFunc` together with the state of the network: the result of
the call made after `n` earlier calls, for the server, the query and the receive
buffer given. -/
abbrev resolvingHandleFunc := Nat → String → List Nat → List Nat → List Nat × Option Error

/-- What `resolver.resolving` has done on the network: the calls of `handle` (server
and length of the receive buffer), and the servers tried by `doWithTCP` in the
loop that follows a truncation, both in order. -/
structure netLog where
  handled : List (String × Nat)
  tcp : List String
deriving DecidableEq, Repr

/-- The first loop of `resolver.resolving`, `for { ... }`, from the state `pckSize`,
`recv`.  `unpack` stands for `msg.Unpack`.  The result is the log and either the
message returned from inside the loop (`Except.ok`) or the value of `err` at the
`break` (`Except.error`); `none` means that the fuel is used up. -/
def resolver.resolving.loop (unpack : List Nat → Except Error Msg)
    (handle : resolvingHandleFunc) (data : List Nat) (server : String) :
    Nat → Nat → List Nat → List (String × Nat) →
      Option (List (String × Nat) × Except (Option Error) Msg)
  | 0, _, _, _ => none
  | fuel + 1, pckSize, recv, log =>
      let log1 := log ++ [(server, recv.length)]
      match handle log.length server data recv with
      | (_, some err) => some (log1, Except.error (some err))
      | (recv1, none) =>
          match unpack recv1 with
          | Except.ok msg => some (log1, Except.ok msg)
          | Except.error err =>
              if err = Error.ErrBuf then
                if pckSize = 4096 then some (log1, Except.error (some Error.ErrHugePacket))
                else
                  resolver.resolving.loop unpack handle data server fuel (pckSize * 2)
                    (makeBytes (pckSize * 2)) log1
              else some (log1, Except.error (some err))

/-- The loop `for i := range r.servers` of `resolver.resolving` that follows a
truncation: `err` is the value of `err` so far (not nil), the list argument the
servers still to try, and the log the servers tried.  The result is the log and
what `resolving` returns: the message unpacked, or `err` after the loop. -/
def resolver.resolving.tcpLoop (unpack : List Nat → Except Error Msg)
    (doWithTCP : resolvingHandleFunc) (data : List Nat) :
    List String → Error → List String → List String × Except Error Msg
  | [], err, log => (log, Except.error err)
  | s :: rest, _, log =>
      match doWithTCP log.length s data (makeBytes (2 ^ 12)) with
      | (_, some err) =>
          resolver.resolving.tcpLoop unpack doWithTCP data rest err (log ++ [s])
      | (recv, none) =>
          match unpack recv with
          | Except.ok msg => (log ++ [s], Except.ok msg)
          | Except.error err =>
              resolver.resolving.tcpLoop unpack doWithTCP data rest err (log ++ [s])

/-- The method `resolver.resolving`, with fuel for its first loop.  The result is the
log of the network calls and the Go result `(msg, err)`; `none` means that the
fuel is used up. -/
def resolver.resolving (unpack : List Nat → Except Error Msg) (doWithTCP : resolvingHandleFunc)
    (r : resolver) (fuel : Nat) (data : List Nat) (server : String)
    (handle : resolvingHandleFunc) : Option (netLog × Except Error Msg) :=
  match resolver.resolving.loop unpack handle data server fuel 512 (makeBytes 512) [] with
  | none => none
  | some (handled, Except.ok msg) => some ({ handled := handled, tcp := [] }, Except.ok msg)
  | some (handled, Except.error err) =>
      if err = some Error.ErrTruncated then
        match resolver.resolving.tcpLoop unpack doWithTCP data r.servers Error.ErrTruncated []
        with
        | (tcp, res) => some ({ handled := handled, tcp := tcp }, res)
      else
        match err with
        | some e => some ({ handled := handled, tcp := [] }, Except.error e)
        | none => some ({ handled := handled, tcp := [] }, Except.error Error.ErrServerFailed)

/-- The network as the transport sees it: `pack` and `unpack` stand for `msg.Pack` and
`msg.Unpack`, and the three handlers for the methods `do` (over the connections
opened at creation), `doWithUDP` and `doWithTCP`. -/
structure Net where
  pack : Msg → Except Error (List Nat)
  unpack : List Nat → Except Error Msg
  conns : resolvingHandleFunc
  doWithUDP : resolvingHandleFunc
  doWithTCP : resolvingHandleFunc

/-- The method `resolver.resolve`: the packed query is sent over the connections
opened at creation.  `none` means that the fuel of `resolving` is used up. -/
def resolver.resolve (net : Net) (r : resolver) (fuel : Nat) (msg : Msg) :
    Option (Except Error Msg) :=
  match net.pack msg with
  | Except.error err => some (Except.error err)
  | Except.ok data =>
      match resolver.resolving net.unpack net.doWithTCP r fuel data "" net.conns with
      | none => none
      | some (_, res) => some res

/-- The loop of `resolver.resolveWithServers` over the servers: UDP first, TCP when the
UDP attempt ends with `dns.ErrTruncated`; `ErrNotFound` when no server answers.
The result is the logs of the calls of `resolving`, in order, and the Go result;
`none` means that the fuel of `resolving` is used up. -/
def resolver.resolveWithServers.loop (net : Net) (r : resolver) (fuel : Nat) (data : List Nat) :
    List String → List netLog → Option (List netLog × Except Error Msg)
  | [], logs => some (logs, Except.error Error.ErrNotFound)
  | s :: rest, logs =>
      match resolver.resolving net.unpack net.doWithTCP r fuel data s net.doWithUDP with
      | none => none
      | some (l1, Except.ok m) => some (logs ++ [l1], Except.ok m)
      | some (l1, Except.error err) =>
          if err = Error.ErrTruncated then
            match resolver.resolving net.unpack net.doWithTCP r fuel data s net.doWithTCP with
            | none => none
            | some (l2, Except.ok m) => some (logs ++ [l1, l2], Except.ok m)
            | some (l2, Except.error _) =>
                resolver.resolveWithServers.loop net r fuel data rest (logs ++ [l1, l2])
          else resolver.resolveWithServers.loop net r fuel data rest (logs ++ [l1])

/-- The method `resolver.resolveWithServers`: the logs of its calls of `resolving` and
the Go result. -/
def resolver.resolveWithServers (net : Net) (r : resolver) (fuel : Nat) (msg : Msg)
    (servers : List String) : Option (List netLog × Except Error Msg) :=
  match net.pack msg with
  | Except.error err => some ([], Except.error err)
  | Except.ok data => resolver.resolveWithServers.loop net r fuel data servers []

/-! ## resolver.go: recursive and iterative resolution -/

/-- The struct `iterativeResolver`: the embedded `resolver` and its own fields. -/
structure iterativeResolver where
  resolver : resolver
  servers : List String
  cnames : Int
  iters : Int
  isStandard : Bool
  isNS : Bool
  raw : Msg
  msg : Msg
deriving DecidableEq, Repr

/-- The world outside a resolution, as the recursive and the iterative resolver see
it: `now n` is the clock reading of the call of `isTimeout` made after `n` earlier
ones; `direct msg` is the result of `resolver.resolve(msg)`, the query over the
connections opened at creation; `query n msg servers` is the result of the call
of `resolver.resolveWithServers(msg, servers)` made after `n` earlier ones (`none`
is an error, which `resolve` does not look into). -/
structure Upstream where
  now : Nat → Time
  direct : Msg → Except Error Msg
  query : Nat → Msg → List String → Option Msg

/-- What a resolution has done so far: the number of clock readings, the calls of
`resolveWithServers` (message and servers) and the messages handed to `toCache`,
both in order. -/
structure Trace where
  reads : Nat
  queries : List (Msg × List String)
  cached : List Msg
deriving DecidableEq, Repr

/-- The state in which nothing has been done yet. -/
def Trace.start : Trace := { reads := 0, queries := [], cached := [] }

/-- The result of a call of `resolve` or `cname`: the Go result `(msg, err)`, the
resolver state and the trace afterwards. -/
abbrev Resolved := Outcome (Except Error Msg × iterativeResolver × Trace)

/-- The method `iterativeResolver.isExceededTimes`: the state afterwards and the
result. -/
def iterativeResolver.isExceededTimes (ir : iterativeResolver) : iterativeResolver × Bool :=
  let ir1 := { ir with iters := ir.iters + 1 }
  (ir1, decide (ir1.iters > iterLimit))

/-- The method `iterativeResolver.isExceededCnames`: the state afterwards and the
result. -/
def iterativeResolver.isExceededCnames (ir : iterativeResolver) : iterativeResolver × Bool :=
  let ir1 := { ir with cnames := ir.cnames + 1 }
  (ir1, decide (ir1.cnames = cnameLimit))

/-- The method `iterativeResolver.cname`, with `resolve` the method
`iterativeResolver.resolve` that it calls.  The argument `names` is not used, as
in the source. -/
def iterativeResolver.cname (resolve : iterativeResolver → Trace → Msg → Resolved)
    (ir : iterativeResolver) (tr : Trace) (msg : Msg) (_names servers : List String) :
    Resolved :=
  match ir.isExceededCnames with
  | (ir1, true) => Outcome.ok (Except.error Error.ErrCyclicCNAME, ir1, tr)
  | (ir1, false) =>
      let xid := msg.Id
      let questions := msg.Question
      let answers := msg.Answer
      let ir2 := { ir1 with msg := msg }
      let ir3 := { ir2 with servers := servers }
      let ir4 := if servers.length = 0 then { ir3 with servers := upDNS, isStandard := true }
        else ir3
      match resolve ir4 tr msg with
      | Outcome.panic => Outcome.panic
      | Outcome.outOfFuel => Outcome.outOfFuel
      | Outcome.ok (Except.error err, ir5, tr5) => Outcome.ok (Except.error err, ir5, tr5)
      | Outcome.ok (Except.ok m, ir5, tr5) =>
          Outcome.ok (Except.ok { m with Id := xid, Question := questions,
                                         Answer := m.Answer ++ answers }, ir5, tr5)

/-- The method `iterativeResolver.resolve`.  The fuel bounds the depth of the calls of
`resolve` (directly and through `cname`) and the rounds of the loop of `FindCname`. -/
def iterativeResolver.resolve (up : Upstream) :
    Nat → iterativeResolver → Trace → Msg → Resolved
  | 0, _, _, _ => Outcome.outOfFuel
  | fuel + 1, ir, tr, msg =>
      match ir.isExceededTimes with
      | (ir1, true) => Outcome.ok (Except.error Error.ErrServerFailed, ir1, tr)
      | (ir1, false) =>
      let tr1 := { tr with reads := tr.reads + 1 }
      if ir1.resolver.isTimeout (up.now tr.reads) then
        Outcome.ok (Except.error Error.ErrServerFailed, ir1, tr1)
      else if ir1.raw.Id ≠ msg.Id then
        Outcome.ok (Except.error Error.ErrInvalidResponse, ir1, tr1)
      else
      match GotAnswer msg with
      | none => Outcome.panic
      | some true =>
          let tr2 := if ir1.resolver.worker.withCache then
            { tr1 with cached := tr1.cached ++ [msg] } else tr1
          Outcome.ok (Except.ok msg, ir1, tr2)
      | some false =>
      match (if ir1.isNS then FindNSExtras msg else none) with
      | some m => Outcome.ok (Except.ok m, ir1, tr1)
      | none =>
      let ir2 := if ir1.servers.length = 0 then { ir1 with servers := upDNS } else ir1
      match FindCname fuel msg with
      | Outcome.panic => Outcome.panic
      | Outcome.outOfFuel => Outcome.outOfFuel
      | Outcome.ok (cname, true) =>
          iterativeResolver.cname (iterativeResolver.resolve up fuel) ir2 tr1 msg [cname]
            ir2.servers
      | Outcome.ok (_, false) =>
      if ir2.servers.length = 0 then
        if !ir2.isStandard then
          iterativeResolver.resolve up fuel { ir2 with isStandard := true, servers := upDNS }
            tr1 ir2.raw
        else Outcome.ok (Except.error Error.ErrServerFailed, ir2, tr1)
      else
      let tr2 := { tr1 with queries := tr1.queries ++ [(msg, ir2.servers)] }
      match up.query tr1.queries.length msg ir2.servers with
      | none =>
          if !ir2.isStandard then
            iterativeResolver.resolve up fuel { ir2 with servers := upDNS, isStandard := true }
              tr2 msg
          else Outcome.ok (Except.error Error.ErrServerFailed, ir2, tr2)
      | some m =>
          iterativeResolver.resolve up fuel
            { ir2 with msg := msg, isStandard := false, isNS := false } tr2 m

/-- The literal `&iterativeResolver{resolver: rr.resolver, raw: msg, msg: msg}` of
`recursiveResolver.resolve`: every other field has its zero value. -/
def newIter (r : resolver) (msg : Msg) : iterativeResolver :=
  { resolver := r, servers := [], cnames := 0, iters := 0, isStandard := false,
    isNS := false, raw := msg, msg := msg }

/-- The method `recursiveResolver.resolve` of the resolver `r`: the direct query, and
the iterative resolution from a new `iterativeResolver` when its answer is not
final.  The result is the Go result and the trace. -/
def recursiveResolver.resolve (up : Upstream) (fuel : Nat) (r : resolver) (tr : Trace)
    (msg : Msg) : Outcome (Except Error Msg × Trace) :=
  match up.direct msg with
  | Except.error _ => Outcome.ok (Except.error Error.ErrServerFailed, tr)
  | Except.ok m =>
      match GotAnswer m with
      | none => Outcome.panic
      | some true =>
          let tr1 := if r.worker.withCache then { tr with cached := tr.cached ++ [m] } else tr
          Outcome.ok (Except.ok m, tr1)
      | some false =>
          match iterativeResolver.resolve up fuel (newIter r msg) tr m with
          | Outcome.panic => Outcome.panic
          | Outcome.outOfFuel => Outcome.outOfFuel
          | Outcome.ok (res, _, tr1) => Outcome.ok (res, tr1)

/-- The test of `iterativeResolver.resolve` on `isNS`: the message that the branch
`if ir.isNS { if _m, found := FindNSExtras(msg); found { return _m, nil } }` returns,
if it returns. -/
def iterativeResolver.glue (ir : iterativeResolver) (msg : Msg) : Option Msg :=
  if ir.isNS then FindNSExtras msg else none

/-- The method `iterativeResolver.resolve` with the test on `isNS` and `FindNSExtras`
replaced by `probe`, a function of the state and the message at that point; with
`probe = iterativeResolver.glue` it is `iterativeResolver.resolve` itself.  It
serves to state on which states that test is made. -/
def iterativeResolver.resolveWith (probe : iterativeResolver → Msg → Option Msg)
    (up : Upstream) : Nat → iterativeResolver → Trace → Msg → Resolved
  | 0, _, _, _ => Outcome.outOfFuel
  | fuel + 1, ir, tr, msg =>
      match ir.isExceededTimes with
      | (ir1, true) => Outcome.ok (Except.error Error.ErrServerFailed, ir1, tr)
      | (ir1, false) =>
      let tr1 := { tr with reads := tr.reads + 1 }
      if ir1.resolver.isTimeout (up.now tr.reads) then
        Outcome.ok (Except.error Error.ErrServerFailed, ir1, tr1)
      else if ir1.raw.Id ≠ msg.Id then
        Outcome.ok (Except.error Error.ErrInvalidResponse, ir1, tr1)
      else
      match GotAnswer msg with
      | none => Outcome.panic
      | some true =>
          let tr2 := if ir1.resolver.worker.withCache then
            { tr1 with cached := tr1.cached ++ [msg] } else tr1
          Outcome.ok (Except.ok msg, ir1, tr2)
      | some false =>
      match probe ir1 msg with
      | some m => Outcome.ok (Except.ok m, ir1, tr1)
      | none =>
      let ir2 := if ir1.servers.length = 0 then { ir1 with servers := upDNS } else ir1
      match FindCname fuel msg with
      | Outcome.panic => Outcome.panic
      | Outcome.outOfFuel => Outcome.outOfFuel
      | Outcome.ok (cname, true) =>
          iterativeResolver.cname (iterativeResolver.resolveWith probe up fuel) ir2 tr1 msg
            [cname] ir2.servers
      | Outcome.ok (_, false) =>
      if ir2.servers.length = 0 then
        if !ir2.isStandard then
          iterativeResolver.resolveWith probe up fuel
            { ir2 with isStandard := true, servers := upDNS } tr1 ir2.raw
        else Outcome.ok (Except.error Error.ErrServerFailed, ir2, tr1)
      else
      let tr2 := { tr1 with queries := tr1.queries ++ [(msg, ir2.servers)] }
      match up.query tr1.queries.length msg ir2.servers with
      | none =>
          if !ir2.isStandard then
            iterativeResolver.resolveWith probe up fuel
              { ir2 with servers := upDNS, isStandard := true } tr2 msg
          else Outcome.ok (Except.error Error.ErrServerFailed, ir2, tr2)
      | some m =>
          iterativeResolver.resolveWith probe up fuel
            { ir2 with msg := msg, isStandard := false, isNS := false } tr2 m

/-- One round of the loop of `worker.run` for the packet `upack` taken off the receive
channel, for the worker `w` with its resolver `r` and the cache of the server.
`unpack` and `pack` stand for `msg.Unpack` and `msg.Pack` (as in `worker.send`),
`now1` and `now2` are the clock readings of `Trie.Get`.  The result is the cache
afterwards, the messages handed to `toCache` and the packet put on the send
channel, if any; the message that `send` leaves behind is dropped, as the loop
does not read it again.  On a cache hit the answer records of the message are the
records of the cached record themselves, so the `Rdlength` that `Pack` writes is
written to the cached record as well; the cache of the result does not show
these writes, which nothing in the package reads. -/
def worker.run.round (lower : String → String) (typeToString : Nat → String)
    (pack : Msg → Msg × Option (List Nat)) (unpack : List Nat → Except Error Msg)
    (up : Upstream) (fuel : Nat) (w : worker) (r : resolver) (cache : Trie Value)
    (now1 now2 : Time) (upack : userPacket) :
    Outcome (Trie Value × List Msg × Option userPacket) :=
  match unpack upack.data with
  | Except.error _ => Outcome.ok (cache, [], none)
  | Except.ok msg =>
      if msg.Question.length = 0 then Outcome.ok (cache, [], none)
      else
        let resolveIt (cache1 : Trie Value) (msg1 : Msg) :
            Outcome (Trie Value × List Msg × Option userPacket) :=
          match recursiveResolver.resolve up fuel r Trace.start msg1 with
          | Outcome.panic => Outcome.panic
          | Outcome.outOfFuel => Outcome.outOfFuel
          | Outcome.ok (Except.ok m, tr) =>
              Outcome.ok (cache1, tr.cached, (worker.send pack upack m).2)
          | Outcome.ok (Except.error _, tr) =>
              Outcome.ok (cache1, tr.cached, (worker.send pack upack msg1).2)
        if w.withCache then
          match worker.resolveCache lower typeToString cache msg now1 now2 with
          | none => Outcome.panic
          | some (cache1, msg1, true) =>
              Outcome.ok (cache1, [], (worker.send pack upack msg1).2)
          | some (cache1, msg1, false) => resolveIt cache1 msg1
        else resolveIt cache msg

/-! ## Concrete inputs used below -/

/-- The record that `NewRecord` makes of `exampleMsg` at time 0: it expires 300
seconds later. -/
def exampleRecord : Record :=
  { Expired := 300 * Second, Msg := exampleMsg }

/-- The cache key of `exampleMsg`. -/
def exampleKey : String := "a.example.com."

/-- A fresh cache into which `exampleRecord` has been inserted under its key. -/
def exampleCache : Trie Value :=
  (NewTrie : Trie Value).Insert exampleKey (some (Value.record exampleRecord))

/-- A configuration with a pool of 2 to 5 workers. -/
def exampleConfig : Config :=
  { Addr := ":53", UpServers := ["8.8.8.8"], WithCache := true, CacheFile := "cache.json",
    WorkerPoolMin := 2, WorkerPoolMax := 5 }

/-- A query for the A record of `Example.COM.`, as a client may send it. -/
def upperQuery : Msg :=
  queryMsg 11 { Name := "Example.COM.", Qtype := TypeA, Qclass := 1 }

/-- A query for the A record of `example.com.`. -/
def lowerQuery : Msg :=
  queryMsg 12 { Name := "example.com.", Qtype := TypeA, Qclass := 1 }

/-- An upstream response to `upperQuery` with one answer of TTL 300. -/
def upperResponse : Msg :=
  { upperQuery with
    Response := true,
    Answer := [some (RR.a "Example.COM." 300 "93.184.216.34")] }

/-- A referral: no answer, two NS records in the authority section. -/
def referralMsg : Msg :=
  { lowerQuery with
    Response := true,
    Ns := [some (RR.ns "com." 60 "a.gtld-servers.net."),
           some (RR.ns "com." 60 "b.gtld-servers.net.")] }

/-- The server of `exampleConfig` right after its pool was created. -/
def exampleServer : server :=
  { config := exampleConfig, pool := newWorkerPool exampleConfig }

/-- A configuration whose `WorkerPoolMin` is the largest 64-bit `int`. -/
def hugeConfig : Config :=
  { Addr := ":53", UpServers := [], WithCache := false, CacheFile := "",
    WorkerPoolMin := 2 ^ 63 - 1, WorkerPoolMax := 0 }

/-- A CNAME record: `name` is an alias of `target`. -/
def RR.cname (name : String) (ttl : Nat) (target : String) : RR :=
  { Hdr := { Name := name, Rrtype := TypeCNAME, Class := 1, Ttl := ttl, Rdlength := 0 },
    body := RData.CNAME target }

/-- A response to the A query for `a.example.` whose answer is two CNAME records that
refer to each other: `a.example.` to `b.example.` and back. -/
def cyclicMsg : Msg :=
  { queryMsg 21 { Name := "a.example.", Qtype := TypeA, Qclass := 1 } with
    Response := true,
    Answer := [some (RR.cname "a.example." 60 "b.example."),
               some (RR.cname "b.example." 60 "a.example.")] }

/-- A response to the A query for `a.example.` whose answer is a chain of three CNAME
records, from `a.example.` to `d.example.`. -/
def chainMsg : Msg :=
  { queryMsg 22 { Name := "a.example.", Qtype := TypeA, Qclass := 1 } with
    Response := true,
    Answer := [some (RR.cname "a.example." 60 "b.example."),
               some (RR.cname "b.example." 60 "c.example."),
               some (RR.cname "c.example." 60 "d.example.")] }

/-- A handler that succeeds and hands back the receive buffer as the reply. -/
def echoHandle : resolvingHandleFunc :=
  fun _ _ _ recv => (recv, none)

/-- A handler that fails for every server. -/
def failHandle : resolvingHandleFunc :=
  fun _ _ _ recv => (recv, some (Error.other "i/o timeout"))

/-- A worker with the cache switched on and no upstream server configured. -/
def exampleWorker : worker :=
  { withCache := true, upServers := [] }

/-- A final answer to `lowerQuery`: one address record. -/
def lowerAnswer : Msg :=
  { lowerQuery with
    Response := true,
    Answer := [some (RR.a "example.com." 300 "93.184.216.34")] }

/-- An upstream at clock time `t` whose direct answer to a query is the referral
`referralMsg`, and which answers every later query with the final `lowerAnswer`. -/
def answeringUpstream (t : Time) : Upstream :=
  { now := fun _ => t,
    direct := fun _ => Except.ok referralMsg,
    query := fun _ _ _ => some lowerAnswer }

/-- An upstream at clock time `t` whose direct answer is `referralMsg` and which
gives no response to any later query. -/
def silentUpstream (t : Time) : Upstream :=
  { now := fun _ => t,
    direct := fun _ => Except.ok referralMsg,
    query := fun _ _ _ => none }

/-- The query for the A record of `a.example.` that `chainMsg` and `cyclicMsg`
answer, with the id of `chainMsg`. -/
def chainQuery : Msg :=
  queryMsg 22 { Name := "a.example.", Qtype := TypeA, Qclass := 1 }

/-- The address record of `d.example.`, the end of the chain of `chainMsg`, as a
response with the id of `chainQuery`. -/
def chainEnd : Msg :=
  { queryMsg 22 { Name := "d.example.", Qtype := TypeA, Qclass := 1 } with
    Response := true,
    Answer := [some (RR.a "d.example." 300 "192.0.2.7")] }

/-- An upstream at clock time `t` whose direct answer is the CNAME chain `chainMsg`
and which answers every later query with the address of the end of the chain. -/
def chainUpstream (t : Time) : Upstream :=
  { now := fun _ => t,
    direct := fun _ => Except.ok chainMsg,
    query := fun _ _ _ => some chainEnd }

/-- An upstream at clock time 0 whose direct answer is `cyclicMsg`. -/
def cyclicUpstream : Upstream :=
  { now := fun _ => 0,
    direct := fun _ => Except.ok cyclicMsg,
    query := fun _ _ _ => none }

/-- A resolver created at time `t` for `exampleWorker`, every dial succeeding. -/
def resolverAt (t : Time) : resolver :=
  newResolver (fun _ => true) exampleWorker [] t

/-- The query for the A record of `a.example.` with the id of `cyclicMsg`. -/
def cyclicQuery : Msg :=
  queryMsg 21 { Name := "a.example.", Qtype := TypeA, Qclass := 1 }

/-- A resolver created at time 0 for a worker configured with the one upstream
server `192.0.2.53`. -/
def configuredResolver : resolver :=
  newResolver (fun _ => true) { withCache := true, upServers := ["192.0.2.53"] }
    ["192.0.2.53"] 0

/-- A response with the id of `lowerQuery` and one address record in its answer
section, but an empty question section. -/
def noQuestionAnswer : Msg :=
  { lowerAnswer with Question := [] }

/-- A response with the id of `lowerQuery`, an empty question section, no answer, and
one CNAME record in its authority section. -/
def noQuestionCname : Msg :=
  { lowerQuery with
    Response := true,
    Question := [],
    Ns := [some (RR.cname "example.com." 60 "example.net.")] }

/-- An upstream at clock time 0 whose direct answer is `m`, and which gives no
response to any later query. -/
def replyUpstream (m : Msg) : Upstream :=
  { now := fun _ => 0,
    direct := fun _ => Except.ok m,
    query := fun _ _ _ => none }

/-- The client packet whose bytes unpack to `lowerQuery`. -/
def lowerPacket : userPacket :=
  { data := [0, 12], addr := "198.51.100.9:5353" }

/-- A response that is authoritative, is not final for `lowerQuery` and has an address
record in its additional section: what `FindNSExtras` would turn into an answer. -/
def glueMsg : Msg :=
  { referralMsg with
    Authoritative := true,
    Extra := [some (RR.a "a.gtld-servers.net." 60 "192.5.6.30")] }

/-- Modelled from the `dns` library (not in src/): the number of bytes of the packed
data of a record in a message without name compression.  An IPv4 address takes 4
bytes; a fully qualified domain name without escapes takes one length byte per
label, the bytes of the labels and the closing zero byte, which is the length of
the name plus one (one byte for the root name).  For a record of another type
the length is left as it is. -/
def RR.packedLength (rr : RR) : Nat :=
  match rr.body with
  | RData.A _ => 4
  | RData.NS n => if n = "." then 1 else n.length + 1
  | RData.CNAME n => if n = "." then 1 else n.length + 1
  | RData.other => rr.Hdr.Rdlength

/-- What `msg.Pack()` leaves in the records of a section: every record has the
length of its packed data in `Hdr.Rdlength`. -/
def packSection (l : List (Option RR)) : List (Option RR) :=
  l.map (fun rr => rr.map (fun r => { r with Hdr := { r.Hdr with Rdlength := r.packedLength } }))

/-- A stand-in for `msg.Pack()` on a message without compression and without nil
records, whose records are address, NS and CNAME records: the message is left
with the packed lengths in its records.  The bytes are not modelled: the empty
list stands for them. -/
def examplePack (m : Msg) : Msg × Option (List Nat) :=
  ({ m with Answer := packSection m.Answer, Ns := packSection m.Ns,
            Extra := packSection m.Extra }, some [])

/-! ## Lemmas on the trie -/

theorem getElem?_append_cons_length {α : Type} (xs : List α) (y : α) (ys : List α) :
    (xs ++ y :: ys)[xs.length]? = some y := by
  induction xs with
  | nil => simp
  | cons x xs ih => simpa using ih

theorem set_append_cons_length {α : Type} (xs : List α) (y z : α) (ys : List α) :
    (xs ++ y :: ys).set xs.length z = xs ++ z :: ys := by
  induction xs with
  | nil => simp
  | cons x xs ih => simp [ih]

theorem reverseString.loop_spec (fuel : Nat) (pre mid post : List Char)
    (h : mid.length ≤ fuel) :
    reverseString.loop fuel (pre ++ mid ++ post) (pre.length : Int)
        ((pre.length : Int) + (mid.length : Int) - 1)
      = pre ++ mid.reverse ++ post := by
  induction fuel generalizing pre mid post with
  | zero =>
      have : mid = [] := List.length_eq_zero.mp (Nat.le_zero.mp h)
      subst this
      simp [reverseString.loop]
  | succ n ih =>
      cases mid with
      | nil => simp [reverseString.loop]
      | cons a rest =>
          rcases List.eq_nil_or_concat rest with hr | ⟨mid2, b, hr⟩
          · subst hr
            simp [reverseString.loop]
          · subst hr
            have hlen : (a :: mid2.concat b).length = mid2.length + 2 := by simp
            have hlt : (pre.length : Int)
                < (pre.length : Int) + ((a :: mid2.concat b).length : Int) - 1 := by
              rw [hlen]; push_cast; omega
            have hjn : ((pre.length : Int) + ((a :: mid2.concat b).length : Int) - 1).toNat
                = (pre ++ a :: mid2).length := by
              rw [hlen]; simp only [List.length_append, List.length_cons]; push_cast; omega
            have hshape1 : pre ++ a :: mid2.concat b ++ post
                = pre ++ a :: (mid2 ++ b :: post) := by
              simp
            have hshape2 : pre ++ a :: mid2.concat b ++ post
                = (pre ++ a :: mid2) ++ b :: post := by
              simp
            have hi : (pre ++ a :: mid2.concat b ++ post)[(pre.length : Int).toNat]?
                = some a := by
              rw [hshape1, Int.toNat_ofNat]; exact getElem?_append_cons_length _ _ _
            have hj : (pre ++ a :: mid2.concat b ++ post)[((pre.length : Int)
                + ((a :: mid2.concat b).length : Int) - 1).toNat]? = some b := by
              rw [hjn, hshape2]; exact getElem?_append_cons_length _ _ _
            have hset : ((pre ++ a :: mid2.concat b ++ post).set (pre.length : Int).toNat b).set
                ((pre.length : Int) + ((a :: mid2.concat b).length : Int) - 1).toNat a
                = (pre ++ [b]) ++ mid2 ++ (a :: post) := by
              rw [hjn, Int.toNat_ofNat, hshape1, set_append_cons_length]
              have e : pre ++ b :: (mid2 ++ b :: post) = (pre ++ b :: mid2) ++ b :: post := by
                simp
              have e2 : (pre ++ a :: mid2).length = (pre ++ b :: mid2).length := by simp
              rw [e, e2, set_append_cons_length]
              simp
            have hi2 : (pre.length : Int) + 1 = ((pre ++ [b]).length : Int) := by simp
            have hj2 : (pre.length : Int) + ((a :: mid2.concat b).length : Int) - 1 - 1
                = ((pre ++ [b]).length : Int) + (mid2.length : Int) - 1 := by
              rw [hlen]
              simp only [List.length_append, List.length_cons, List.length_nil]
              push_cast
              omega
            have hfuel : mid2.length ≤ n := by rw [hlen] at h; omega
            rw [reverseString.loop]
            simp only [hlt, if_true, hi, hj, hset]
            rw [hi2, hj2, ih (pre ++ [b]) mid2 (a :: post) hfuel]
            simp

theorem reverseString_data (s : String) : (reverseString s).data = s.data.reverse := by
  have h := reverseString.loop_spec s.data.length [] s.data [] (le_refl _)
  simp only [List.nil_append, List.append_nil, List.length_nil, Nat.cast_zero, zero_add] at h
  simp only [reverseString]
  exact h

theorem reverseString_data_ne {k k2 : String} (h : k ≠ k2) :
    (reverseString k).data ≠ (reverseString k2).data := by
  intro e
  rw [reverseString_data, reverseString_data] at e
  have e2 : k.data = k2.data := List.reverse_injective e
  exact h (String.ext e2)

theorem toRunes.go_encodeRune (c : Char) (rest : GoString) :
    toRunes.go 0 (encodeRune c ++ rest) = c :: toRunes.go 0 rest := by
  have hv : c.toNat < 0xd800 ∨ (0xdfff < c.toNat ∧ c.toNat < 0x110000) := c.valid
  have hc : ∀ n, n = c.toNat → Char.ofNat n = c := by
    intro n h; subst h; exact Char.ofNat_toNat c
  unfold encodeRune
  by_cases h1 : c.toNat < 0x80
  · simp only [h1, if_true, List.cons_append, List.nil_append, toRunes.go, decodeRune]
    simp [hc]
  · by_cases h2 : c.toNat < 0x800
    · simp only [h1, h2, if_true, if_false, List.cons_append, List.nil_append, toRunes.go,
        decodeRune]
      have a1 : ¬ (0xC0 + c.toNat / 64 < 0x80) := by omega
      have a2 : ¬ (0xC0 + c.toNat / 64 < 0xC2) := by omega
      have a3 : 0xC0 + c.toNat / 64 < 0xE0 := by omega
      have a4 : 0x80 ≤ 0x80 + c.toNat % 64 ∧ 0x80 + c.toNat % 64 ≤ 0xBF := by omega
      have a5 : (0xC0 + c.toNat / 64 - 0xC0) * 64 + (0x80 + c.toNat % 64 - 0x80)
          = c.toNat := by omega
      simp only [a1, a2, a3, a4, a5, if_true, if_false, and_self, hc c.toNat rfl]
      rfl
    · by_cases h3 : c.toNat < 0x10000
      · simp only [h1, h2, h3, if_true, if_false, List.cons_append, List.nil_append,
          toRunes.go, decodeRune]
        have a1 : ¬ (0xE0 + c.toNat / 4096 < 0x80) := by omega
        have a2 : ¬ (0xE0 + c.toNat / 4096 < 0xC2) := by omega
        have a3 : ¬ (0xE0 + c.toNat / 4096 < 0xE0) := by omega
        have a4 : 0xE0 + c.toNat / 4096 < 0xF0 := by omega
        have a5 : (if 0xE0 + c.toNat / 4096 = 0xE0 then 0xA0 else 0x80)
              ≤ 0x80 + c.toNat / 64 % 64
            ∧ 0x80 + c.toNat / 64 % 64
              ≤ (if 0xE0 + c.toNat / 4096 = 0xED then 0x9F else 0xBF) := by
          split_ifs <;> omega
        have a6 : 0x80 ≤ 0x80 + c.toNat % 64 ∧ 0x80 + c.toNat % 64 ≤ 0xBF := by omega
        have a7 : (0xE0 + c.toNat / 4096 - 0xE0) * 4096
            + (0x80 + c.toNat / 64 % 64 - 0x80) * 64
            + (0x80 + c.toNat % 64 - 0x80) = c.toNat := by omega
        simp only [a1, a2, a3, a4, a5, a6, a7, if_true, if_false, and_self, hc c.toNat rfl]
        rfl
      · simp only [h1, h2, h3, if_true, if_false, List.cons_append, List.nil_append,
          toRunes.go, decodeRune]
        have a1 : ¬ (0xF0 + c.toNat / 262144 < 0x80) := by omega
        have a2 : ¬ (0xF0 + c.toNat / 262144 < 0xC2) := by omega
        have a3 : ¬ (0xF0 + c.toNat / 262144 < 0xE0) := by omega
        have a4 : ¬ (0xF0 + c.toNat / 262144 < 0xF0) := by omega
        have a4b : 0xF0 + c.toNat / 262144 < 0xF5 := by omega
        have a5 : (if 0xF0 + c.toNat / 262144 = 0xF0 then 0x90 else 0x80)
              ≤ 0x80 + c.toNat / 4096 % 64
            ∧ 0x80 + c.toNat / 4096 % 64
              ≤ (if 0xF0 + c.toNat / 262144 = 0xF4 then 0x8F else 0xBF) := by
          split_ifs <;> omega
        have a6 : 0x80 ≤ 0x80 + c.toNat / 64 % 64 ∧ 0x80 + c.toNat / 64 % 64 ≤ 0xBF := by
          omega
        have a6b : 0x80 ≤ 0x80 + c.toNat % 64 ∧ 0x80 + c.toNat % 64 ≤ 0xBF := by omega
        have a7 : (0xF0 + c.toNat / 262144 - 0xF0) * 262144
            + (0x80 + c.toNat / 4096 % 64 - 0x80) * 4096
            + (0x80 + c.toNat / 64 % 64 - 0x80) * 64
            + (0x80 + c.toNat % 64 - 0x80) = c.toNat := by omega
        simp only [a1, a2, a3, a4, a4b, a5, a6, a6b, a7, if_true, if_false, and_self,
          hc c.toNat rfl]
        rfl

/-- The runes of the string of a rune slice are the runes of the slice:
`[]rune(string(r))` is `r`. -/
theorem toRunes_runesToString (r : List Char) : toRunes (runesToString r) = r := by
  unfold toRunes runesToString
  induction r with
  | nil => rfl
  | cons c cs ih => simp only [List.flatMap_cons, toRunes.go_encodeRune, ih]

/-- The runes of the bytes of a valid UTF-8 string are the runes of the string. -/
theorem toRunes_utf8Bytes (s : String) : toRunes (utf8Bytes s) = s.data :=
  toRunes_runesToString s.data

theorem utf8Bytes_injective {s s2 : String} (h : utf8Bytes s = utf8Bytes s2) : s = s2 := by
  have e : toRunes (utf8Bytes s) = toRunes (utf8Bytes s2) := by rw [h]
  rw [toRunes_utf8Bytes, toRunes_utf8Bytes] at e
  exact String.ext e

/-- The runes that the loops of the trie range over: the runes of the key, reversed. -/
theorem reverseStringBytes_runes (s : GoString) :
    toRunes (reverseStringBytes s) = (toRunes s).reverse := by
  have h := reverseString.loop_spec (toRunes s).length [] (toRunes s) [] (le_refl _)
  simp only [List.nil_append, List.append_nil, List.length_nil, Nat.cast_zero, zero_add] at h
  simp only [reverseStringBytes, toRunes_runesToString]
  exact h

theorem reverseStringBytes_runes_ne {k k2 : GoString} (h : toRunes k ≠ toRunes k2) :
    toRunes (reverseStringBytes k) ≠ toRunes (reverseStringBytes k2) := by
  intro e
  rw [reverseStringBytes_runes, reverseStringBytes_runes] at e
  exact h (List.reverse_injective e)

/-- On the bytes of a valid UTF-8 string, `reverseString` gives the bytes of what the
function on Lean strings gives. -/
theorem reverseStringBytes_utf8Bytes (s : String) :
    reverseStringBytes (utf8Bytes s) = utf8Bytes (reverseString s) := by
  simp only [reverseStringBytes, reverseString, utf8Bytes, toRunes_runesToString]

theorem Trie.findWord_NewTrie {α : Type} (w : List Char) :
    Trie.findWord w (NewTrie : Trie α) = (none, false) := by
  cases w <;> simp [Trie.findWord, NewTrie]

theorem Trie.findWord_insertWord_same {α : Type} (w : List Char) (t : Trie α) (v : Option α) :
    Trie.findWord w (Trie.insertWord w t v) = (v, true) := by
  induction w generalizing t with
  | nil => cases t; simp [Trie.insertWord, Trie.findWord]
  | cons c cs ih =>
      cases t with
      | mk leaf next d => simp [Trie.insertWord, Trie.findWord, ih]

theorem Trie.findWord_insertWord_other {α : Type} (w w2 : List Char) (t : Trie α)
    (v : Option α) (h : w ≠ w2) :
    Trie.findWord w2 (Trie.insertWord w t v) = Trie.findWord w2 t := by
  induction w generalizing w2 t with
  | nil =>
      cases t with
      | mk leaf next d =>
          cases w2 with
          | nil => exact absurd rfl h
          | cons c2 cs2 => simp [Trie.insertWord, Trie.findWord]
  | cons c cs ih =>
      cases t with
      | mk leaf next d =>
          cases w2 with
          | nil => simp [Trie.insertWord, Trie.findWord]
          | cons c2 cs2 =>
              by_cases hc : c2 = c
              · subst hc
                have hcs : cs ≠ cs2 := fun e => h (by rw [e])
                cases hn : next c2 with
                | none =>
                    simp [Trie.insertWord, Trie.findWord, hn, ih _ _ hcs,
                      Trie.findWord_NewTrie]
                | some n => simp [Trie.insertWord, Trie.findWord, hn, ih _ _ hcs]
              · simp [Trie.insertWord, Trie.findWord, Function.update_noteq hc]

theorem Trie.findWord_removeWord_other {α : Type} (w w2 : List Char) (t : Trie α)
    (h : w ≠ w2) :
    Trie.findWord w2 (Trie.removeWord w t) = Trie.findWord w2 t := by
  induction w generalizing w2 t with
  | nil =>
      cases t with
      | mk leaf next d =>
          cases w2 with
          | nil => exact absurd rfl h
          | cons c2 cs2 => cases leaf <;> simp [Trie.removeWord, Trie.findWord]
  | cons c cs ih =>
      cases t with
      | mk leaf next d =>
          cases w2 with
          | nil => cases hn : next c <;> simp [Trie.removeWord, Trie.findWord, hn]
          | cons c2 cs2 =>
              by_cases hc : c2 = c
              · subst hc
                have hcs : cs ≠ cs2 := fun e => h (by rw [e])
                cases hn : next c2 with
                | none => simp [Trie.removeWord, Trie.findWord, hn]
                | some n => simp [Trie.removeWord, Trie.findWord, hn, ih _ _ hcs]
              · cases hn : next c with
                | none => simp [Trie.removeWord, Trie.findWord, hn]
                | some n =>
                    simp [Trie.removeWord, Trie.findWord, hn, Function.update_noteq hc]

/-- After `removeWord`, a word that was found before is still found, now with nil
data: the leaf flag is not cleared. -/
theorem Trie.findWord_removeWord_same {α : Type} (w : List Char) (t : Trie α)
    (h : (Trie.findWord w t).2 = true) :
    Trie.findWord w (Trie.removeWord w t) = (none, true) := by
  induction w generalizing t with
  | nil =>
      cases t with
      | mk leaf next d =>
          cases leaf
          · simp [Trie.findWord] at h
          · simp [Trie.removeWord, Trie.findWord]
  | cons c cs ih =>
      cases t with
      | mk leaf next d =>
          cases hn : next c with
          | none => simp [Trie.findWord, hn] at h
          | some n =>
              have h2 : (Trie.findWord cs n).2 = true := by
                simpa [Trie.findWord, hn] using h
              simp [Trie.removeWord, Trie.findWord, hn, ih n h2]

/-! ## Theorems on the trie -/

/-- C1: for every trie, key and value, `Find` of the key right after `Insert`
returns the inserted value with `ok = true`; a second `Insert` on the same key
overwrites it, so `Find` returns the value inserted last. -/
theorem Trie.Find_Insert {α : Type} (t : Trie α) (k : String) (v v2 : Option α) :
    (t.Insert k v).Find k = (v, true) ∧
    ((t.Insert k v).Insert k v2).Find k = (v2, true) := by
  constructor <;> exact Trie.findWord_insertWord_same _ _ _

theorem Trie.Find_Insert_other {α : Type} (t : Trie α) (k k2 : String) (v : Option α)
    (h : k ≠ k2) : (t.Insert k v).Find k2 = t.Find k2 :=
  Trie.findWord_insertWord_other _ _ _ _ (reverseString_data_ne h)

theorem Trie.Find_Delete_other {α : Type} (t : Trie α) (k k2 : String)
    (h : k ≠ k2) : (t.Delete k).Find k2 = t.Find k2 :=
  Trie.findWord_removeWord_other _ _ _ (reverseString_data_ne h)

theorem Trie.FindBytes_InsertBytes_other {α : Type} (t : Trie α) (k k2 : GoString)
    (v : Option α) (h : toRunes k ≠ toRunes k2) :
    (t.InsertBytes k v).FindBytes k2 = t.FindBytes k2 :=
  Trie.findWord_insertWord_other _ _ _ _ (reverseStringBytes_runes_ne h)

theorem Trie.FindBytes_DeleteBytes_other {α : Type} (t : Trie α) (k k2 : GoString)
    (h : toRunes k ≠ toRunes k2) : (t.DeleteBytes k).FindBytes k2 = t.FindBytes k2 :=
  Trie.findWord_removeWord_other _ _ _ (reverseStringBytes_runes_ne h)

/-- On an arbitrary Go string as key, `Find` right after `Insert` returns the value
inserted. -/
theorem Trie.FindBytes_InsertBytes_same {α : Type} (t : Trie α) (k : GoString)
    (v : Option α) : (t.InsertBytes k v).FindBytes k = (v, true) :=
  Trie.findWord_insertWord_same _ _ _

/-- On the bytes of a valid UTF-8 key, `Find`, `Insert` and `Delete` are the
operations on Lean strings. -/
theorem Trie.FindBytes_utf8Bytes {α : Type} (t : Trie α) (k : String) (v : Option α) :
    t.FindBytes (utf8Bytes k) = t.Find k ∧
    t.InsertBytes (utf8Bytes k) v = t.Insert k v ∧
    t.DeleteBytes (utf8Bytes k) = t.Delete k := by
  simp only [Trie.FindBytes, Trie.InsertBytes, Trie.DeleteBytes, Trie.Find, Trie.find,
    Trie.Insert, Trie.Delete, Trie.remove, reverseStringBytes_utf8Bytes, toRunes_utf8Bytes,
    and_self]

theorem Trie.insertAllBytes_utf8Bytes {α : Type} (t : Trie α)
    (ops : List (String × Option α)) :
    t.insertAllBytes (ops.map (fun op => (utf8Bytes op.1, op.2))) = t.insertAll ops := by
  induction ops generalizing t with
  | nil => rfl
  | cons op rest ih =>
      simp only [Trie.insertAllBytes, Trie.insertAll, List.map_cons, List.foldl_cons,
        (Trie.FindBytes_utf8Bytes t op.1 op.2).2.1]
      exact ih _

theorem Trie.insertAllBytes_FindBytes_other {α : Type} (ops : List (GoString × Option α))
    (k : GoString) (h : toRunes k ∉ ops.map (fun op => toRunes op.1)) (t : Trie α) :
    (t.insertAllBytes ops).FindBytes k = t.FindBytes k := by
  induction ops generalizing t with
  | nil => rfl
  | cons op rest ih =>
      have hne : toRunes op.1 ≠ toRunes k := by
        intro e
        exact h (by simp [e])
      have hrest : toRunes k ∉ rest.map (fun op => toRunes op.1) := by
        intro hm
        exact h (by simp only [List.map_cons, List.mem_cons]; exact Or.inr hm)
      have hstep := ih hrest (t.InsertBytes op.1 op.2)
      rw [Trie.FindBytes_InsertBytes_other t op.1 k op.2 hne] at hstep
      simpa [Trie.insertAllBytes] using hstep

/-- In a trie built from `NewTrie` by any sequence of `Insert` calls on Lean strings,
`Find` of a string that is not among the inserted ones returns `(nil, false)`. -/
theorem Trie.Find_not_inserted {α : Type} (ops : List (String × Option α)) (k : String)
    (h : k ∉ ops.map Prod.fst) :
    ((NewTrie : Trie α).insertAll ops).Find k = (none, false) := by
  have hr : toRunes (utf8Bytes k)
      ∉ (ops.map (fun op => (utf8Bytes op.1, op.2))).map (fun op => toRunes op.1) := by
    intro hm
    simp only [List.map_map, List.mem_map, Function.comp, toRunes_utf8Bytes] at hm
    obtain ⟨op, hop, e⟩ := hm
    have e2 : op.1 = k := String.ext e
    exact h (by rw [← e2]; exact List.mem_map_of_mem Prod.fst hop)
  have h2 := Trie.insertAllBytes_FindBytes_other _ _ hr (NewTrie : Trie α)
  rw [Trie.insertAllBytes_utf8Bytes, (Trie.FindBytes_utf8Bytes _ k none).1,
    (Trie.FindBytes_utf8Bytes _ k none).1] at h2
  rw [h2]
  exact Trie.findWord_NewTrie _

/-- C2, as the code has it: a key whose bytes are not valid UTF-8 is found under
another key.  After `Insert("\xff", "v1")` on a new trie, the key `"\xfe"`,
which was never inserted, is found with the value `v1`: both keys have the rune
sequence `[U+FFFD]`. -/
theorem Trie.FindBytes_invalid_key_counterexample :
    ([0xfe] : GoString) ∉ [([0xff] : GoString)] ∧
    toRunes [0xfe] = [RuneError] ∧ toRunes [0xff] = [RuneError] ∧
    ((NewTrie : Trie String).insertAllBytes [([0xff], some "v1")]).FindBytes [0xfe]
      = (some "v1", true) := by
  refine ⟨by decide, by decide, by decide, by decide⟩

/-- C2, amended: in a trie built from `NewTrie` by any sequence of `Insert` calls,
`Find` of a key whose rune sequence is not the rune sequence of an inserted key
returns `(nil, false)`; and when the inserted keys and the key looked up are valid
UTF-8, this holds of every key that is not among the inserted keys. -/
theorem Trie.FindBytes_not_inserted {α : Type} (ops : List (GoString × Option α))
    (k : GoString) (h : toRunes k ∉ ops.map (fun op => toRunes op.1)) :
    ((NewTrie : Trie α).insertAllBytes ops).FindBytes k = (none, false) ∧
    ∀ (sops : List (String × Option α)) (s : String), s ∉ sops.map Prod.fst →
      ((NewTrie : Trie α).insertAllBytes
        (sops.map (fun op => (utf8Bytes op.1, op.2)))).FindBytes (utf8Bytes s)
        = (none, false) := by
  constructor
  · rw [Trie.insertAllBytes_FindBytes_other ops k h]
    exact Trie.findWord_NewTrie _
  · intro sops s hs
    rw [Trie.insertAllBytes_utf8Bytes, (Trie.FindBytes_utf8Bytes _ s none).1]
    exact Trie.Find_not_inserted sops s hs

/-- C2, amended, on the calls of the test of the trie: `www` is only a label of the
inserted names, and is not found. -/
theorem Trie.FindBytes_not_inserted_witness :
    toRunes (utf8Bytes "www")
      ∉ [(utf8Bytes "www.baidu.com", some "baidu"),
         (utf8Bytes "www.google.com.hk", some "google"),
         (utf8Bytes "www.baidu.com", some "百度")].map (fun op => toRunes op.1) ∧
    ((NewTrie : Trie String).insertAllBytes
        [(utf8Bytes "www.baidu.com", some "baidu"),
         (utf8Bytes "www.google.com.hk", some "google"),
         (utf8Bytes "www.baidu.com", some "百度")]).FindBytes (utf8Bytes "www")
      = (none, false) :=
  ⟨by decide, (Trie.FindBytes_not_inserted _ (utf8Bytes "www") (by decide)).1⟩

/-- After `Delete` of a key that `Find` reported as found, `Find` reports it as found
still, with nil data. -/
theorem Trie.Find_Delete_same {α : Type} (t : Trie α) (k : String)
    (h : (t.Find k).2 = true) : (t.Delete k).Find k = (none, true) :=
  Trie.findWord_removeWord_same _ _ h

/-- A `Get` that finds an expired record removes it, and `Find` afterwards reports the
key as found, with nil data. -/
theorem Trie.Find_Get_expired (t : Trie Value) (k : String) (now1 now2 : Time) (r : Record)
    (hfind : t.Find k = (some (Value.record r), true)) (hexp : r.IsExpired now1 = true) :
    t.Get k now1 now2 = some (t.Delete k, none) ∧ (t.Delete k).Find k = (none, true) := by
  have hf : t.find k = (some (Value.record r), true) := hfind
  constructor
  · simp [Trie.Get, hf, hexp, Trie.Delete]
  · exact Trie.Find_Delete_same t k (by rw [hfind])

theorem updateTTLOf_ttl (l : List (Option RR)) (ttl : Nat) (l2 : List (Option RR))
    (h : updateTTLOf l ttl = some l2) :
    l2.length = l.length ∧ ∀ x ∈ l2, ∃ rr, x = some rr ∧ rr.Hdr.Ttl = ttl := by
  induction l generalizing l2 with
  | nil =>
      simp only [updateTTLOf, Option.some.injEq] at h
      subst h
      simp
  | cons a rest ih =>
      cases a with
      | none => simp [updateTTLOf] at h
      | some rr =>
          cases hr : updateTTLOf rest ttl with
          | none => simp [updateTTLOf, hr] at h
          | some rest1 =>
              simp only [updateTTLOf, hr, Option.some.injEq] at h
              subst h
              obtain ⟨hl, hall⟩ := ih rest1 hr
              refine ⟨by simp [hl], ?_⟩
              intro x hx
              rcases List.mem_cons.mp hx with e | hx2
              · exact ⟨_, e, rfl⟩
              · exact hall x hx2

/-- A `Get` that finds an unexpired record and returns it has written, into every
record of its three sections, the remaining duration in nanoseconds reduced
modulo 2^32. -/
theorem Trie.Get_ttl (t t2 : Trie Value) (k : String) (now1 now2 : Time) (r r2 : Record)
    (hfind : t.Find k = (some (Value.record r), true))
    (hget : t.Get k now1 now2 = some (t2, some r2)) :
    ∀ x ∈ r2.Msg.Answer ++ r2.Msg.Ns ++ r2.Msg.Extra,
      ∃ rr, x = some rr ∧ rr.Hdr.Ttl = toUint32 (Time.Sub r.Expired now2) := by
  have hf : t.find k = (some (Value.record r), true) := hfind
  simp only [Trie.Get, hf] at hget
  split at hget
  · simp at hget
  · cases han : updateTTLOf r.Msg.Answer (toUint32 (Time.Sub r.Expired now2)) with
    | none => simp [han] at hget
    | some an =>
      cases hns : updateTTLOf r.Msg.Ns (toUint32 (Time.Sub r.Expired now2)) with
      | none => simp [han, hns] at hget
      | some ns =>
        cases hex : updateTTLOf r.Msg.Extra (toUint32 (Time.Sub r.Expired now2)) with
        | none => simp [han, hns, hex] at hget
        | some ex =>
          simp only [han, hns, hex, Option.some.injEq, Prod.mk.injEq] at hget
          obtain ⟨_, hr2⟩ := hget
          subst hr2
          intro x hx
          simp only [List.mem_append] at hx
          rcases hx with (hx | hx) | hx
          · exact (updateTTLOf_ttl _ _ _ han).2 x hx
          · exact (updateTTLOf_ttl _ _ _ hns).2 x hx
          · exact (updateTTLOf_ttl _ _ _ hex).2 x hx

/-- C3: at a cache holding one record, `Find` of the key after `Delete`, and after a
`Get` that found the record expired, returns `(nil, true)`: the data is cleared,
the leaf flag is not, so the key is still reported as found. -/
theorem Trie.Find_after_removal_example :
    NewRecord exampleMsg 0 = some (some exampleRecord) ∧
    exampleCache.Find exampleKey = (some (Value.record exampleRecord), true) ∧
    (exampleCache.Delete exampleKey).Find exampleKey = (none, true) ∧
    exampleRecord.IsExpired (301 * Second) = true ∧
    (exampleCache.Get exampleKey (301 * Second) (301 * Second)).map
      (fun res => (res.2, res.1.Find exampleKey)) = some (none, (none, true)) := by
  refine ⟨by decide, by decide, by decide, by decide, by decide⟩

/-- C4: a record made from a message whose first answer has TTL 300 and read by
`Get` at its creation time comes back with TTL 3647256576 in its answer, which is
300000000000 (the remaining nanoseconds) modulo 2^32, not 300. -/
theorem Trie.Get_ttl_example :
    NewRecord exampleMsg 0 = some (some exampleRecord) ∧
    (exampleCache.Get exampleKey 0 0).map (fun res => res.2.map (fun r => r.Msg.Answer))
      = some (some [some (RR.a "example.com." 3647256576 "93.184.216.34")]) ∧
    toUint32 (300 * Second) = 3647256576 := by
  refine ⟨by decide, by decide, by decide⟩

/-- C5, as the code has it: with `"\xff"` inserted with the value `v1`, `Delete` of
the other key `"\xfe"` clears the data of `"\xff"`, and `Insert` of `"\xfe"`
overwrites it: the two keys have the same rune sequence `[U+FFFD]`. -/
theorem Trie.FindBytes_frame_counterexample :
    ([0xfe] : GoString) ≠ [0xff] ∧
    ((NewTrie : Trie String).InsertBytes [0xff] (some "v1")).FindBytes [0xff]
      = (some "v1", true) ∧
    (((NewTrie : Trie String).InsertBytes [0xff] (some "v1")).DeleteBytes [0xfe]).FindBytes
      [0xff] = (none, true) ∧
    (((NewTrie : Trie String).InsertBytes [0xff] (some "v1")).InsertBytes [0xfe]
      (some "v2")).FindBytes [0xff] = (some "v2", true) := by
  refine ⟨by decide, by decide, by decide, by decide⟩

/-- C5, amended: for two keys `k` and `k2` with different rune sequences, `Find k2`
gives the same result before and after `Delete k`, and the same result before and
after `Insert k v`; two distinct keys that are valid UTF-8 are such keys. -/
theorem Trie.FindBytes_frame {α : Type} (t : Trie α) (k k2 : GoString) (v : Option α)
    (h : toRunes k ≠ toRunes k2) :
    (t.DeleteBytes k).FindBytes k2 = t.FindBytes k2 ∧
    (t.InsertBytes k v).FindBytes k2 = t.FindBytes k2 ∧
    ∀ (s s2 : String), s ≠ s2 →
      (t.DeleteBytes (utf8Bytes s)).FindBytes (utf8Bytes s2) = t.FindBytes (utf8Bytes s2) ∧
      (t.InsertBytes (utf8Bytes s) v).FindBytes (utf8Bytes s2)
        = t.FindBytes (utf8Bytes s2) := by
  have hs : ∀ (s s2 : String), s ≠ s2 → toRunes (utf8Bytes s) ≠ toRunes (utf8Bytes s2) := by
    intro s s2 hne e
    rw [toRunes_utf8Bytes, toRunes_utf8Bytes] at e
    exact hne (String.ext e)
  exact ⟨Trie.FindBytes_DeleteBytes_other t k k2 h,
    Trie.FindBytes_InsertBytes_other t k k2 v h,
    fun s s2 hne => ⟨Trie.FindBytes_DeleteBytes_other t _ _ (hs s s2 hne),
      Trie.FindBytes_InsertBytes_other t _ _ v (hs s s2 hne)⟩⟩

/-- C5, amended, with `www.google.com` and `mail.google.com` both inserted: the
reversed keys share the path `moc.elgoog.`, and deleting the first leaves the
second found with its value. -/
theorem Trie.FindBytes_frame_witness :
    toRunes (utf8Bytes "www.google.com") ≠ toRunes (utf8Bytes "mail.google.com") ∧
    reverseStringBytes (utf8Bytes "www.google.com") = utf8Bytes "moc.elgoog.www" ∧
    reverseStringBytes (utf8Bytes "mail.google.com") = utf8Bytes "moc.elgoog.liam" ∧
    ((((NewTrie : Trie String).InsertBytes (utf8Bytes "www.google.com")
        (some "w")).InsertBytes (utf8Bytes "mail.google.com")
        (some "m")).DeleteBytes (utf8Bytes "www.google.com")).FindBytes
        (utf8Bytes "mail.google.com")
      = (some "m", true) :=
  ⟨by decide, by decide, by decide,
   ((Trie.FindBytes_frame (((NewTrie : Trie String).InsertBytes (utf8Bytes "www.google.com")
        (some "w")).InsertBytes (utf8Bytes "mail.google.com") (some "m"))
        (utf8Bytes "www.google.com") (utf8Bytes "mail.google.com") none
        (by decide)).1).trans (by decide)⟩

/-! ## Theorems on the messages -/

theorem GotAnswer.loop_total (q : Question) (qs : List Question) (l : List (Option RR)) :
    ∃ b, GotAnswer.loop (q :: qs) l = some b ∧
      (b = true ↔ ∃ rr, some rr ∈ l ∧ rr.Hdr.Rrtype = q.Qtype) := by
  induction l with
  | nil => exact ⟨false, by simp [GotAnswer.loop], by simp⟩
  | cons a rest ih =>
      obtain ⟨b, hb, hiff⟩ := ih
      cases a with
      | none =>
          refine ⟨b, by simp [GotAnswer.loop, hb], ?_⟩
          rw [hiff]
          constructor
          · rintro ⟨rr, hm, hr⟩
            exact ⟨rr, List.mem_cons_of_mem _ hm, hr⟩
          · rintro ⟨rr, hm, hr⟩
            rcases List.mem_cons.mp hm with e | hm2
            · cases e
            · exact ⟨rr, hm2, hr⟩
      | some an =>
          by_cases hty : an.Hdr.Rrtype = q.Qtype
          · refine ⟨true, by simp [GotAnswer.loop, hty], ?_⟩
            simp only [true_iff]
            exact ⟨an, by simp, hty⟩
          · refine ⟨b, by simp [GotAnswer.loop, hty, hb], ?_⟩
            rw [hiff]
            constructor
            · rintro ⟨rr, hm, hr⟩
              exact ⟨rr, List.mem_cons_of_mem _ hm, hr⟩
            · rintro ⟨rr, hm, hr⟩
              rcases List.mem_cons.mp hm with e | hm2
              · cases e; exact absurd hr hty
              · exact ⟨rr, hm2, hr⟩

/-- C6: on a message with at least one question, `GotAnswer` returns, and it returns
true exactly when (a) some answer record has the type of the first question, or
(b) the answer section is empty and the authority section is exactly one
record, an SOA. -/
theorem GotAnswer_iff (m : Msg) (q : Question) (qs : List Question)
    (hq : m.Question = q :: qs) :
    ∃ b, GotAnswer m = some b ∧
      (b = true ↔
        ((∃ rr, some rr ∈ m.Answer ∧ rr.Hdr.Rrtype = q.Qtype) ∨
         (m.Answer = [] ∧ ∃ rr, m.Ns = [some rr] ∧ rr.Hdr.Rrtype = TypeSOA))) := by
  obtain ⟨b, hb, hiff⟩ := GotAnswer.loop_total q qs m.Answer
  unfold GotAnswer
  rw [hq, hb]
  cases b with
  | true =>
      refine ⟨true, rfl, ?_⟩
      simp only [true_iff]
      exact Or.inl (hiff.mp rfl)
  | false =>
      have ha : ¬ ∃ rr, some rr ∈ m.Answer ∧ rr.Hdr.Rrtype = q.Qtype := by
        intro h
        exact Bool.false_ne_true (hiff.mpr h)
      by_cases hlen : m.Answer.length = 0 ∧ m.Ns.length = 1
      · obtain ⟨h0, h1⟩ := hlen
        have hnil : m.Answer = [] := List.length_eq_zero.mp h0
        obtain ⟨x, hx⟩ := List.length_eq_one.mp h1
        cases x with
        | none =>
            refine ⟨false, ?_, ?_⟩
            · simp [hnil, hx]
            · simp [hnil, hx]
        | some ns =>
            refine ⟨decide (ns.Hdr.Rrtype = TypeSOA), ?_, ?_⟩
            · simp [hnil, hx]
            · simp [hnil, hx]
      · refine ⟨false, ?_, ?_⟩
        · simp only [hlen, if_false]
        · have hno : ¬ (m.Answer = [] ∧ ∃ rr, m.Ns = [some rr] ∧ rr.Hdr.Rrtype = TypeSOA) := by
            rintro ⟨e, rr, hns, _⟩
            exact hlen ⟨by simp [e], by simp [hns]⟩
          simp [ha, hno]

/-- C6, on a response with an answer of the requested type; and a referral (no
answer, two NS records) gives false. -/
theorem GotAnswer_iff_witness :
    (exampleMsg.Question = [{ Name := "example.com.", Qtype := TypeA, Qclass := 1 }] ∧
     ∃ b, GotAnswer exampleMsg = some b ∧
      (b = true ↔
        ((∃ rr, some rr ∈ exampleMsg.Answer ∧ rr.Hdr.Rrtype = TypeA) ∨
         (exampleMsg.Answer = [] ∧ ∃ rr, exampleMsg.Ns = [some rr] ∧ rr.Hdr.Rrtype = TypeSOA)))) ∧
    GotAnswer exampleMsg = some true ∧ GotAnswer referralMsg = some false :=
  ⟨⟨rfl, GotAnswer_iff exampleMsg { Name := "example.com.", Qtype := TypeA, Qclass := 1 } [] rfl⟩,
   by decide, by decide⟩

theorem Msg.eraseRdlength_examplePack (m : Msg) :
    (examplePack m).1.eraseRdlength = m.eraseRdlength := by
  have h : ∀ l : List (Option RR),
      (packSection l).map RR.eraseRdlength = l.map RR.eraseRdlength := by
    intro l
    induction l with
    | nil => rfl
    | cons a rest ih =>
        have ih2 : List.map RR.eraseRdlength (packSection rest)
            = List.map RR.eraseRdlength rest := ih
        cases a <;> simp [packSection, RR.eraseRdlength] at ih2 ⊢ <;> exact ih2
  simp only [examplePack, Msg.eraseRdlength, h]

/-- C7, as the code has it: `send` of the referral `referralMsg`, whose two NS records
have `Rdlength` 0, leaves the message with `Rdlength` 20 in both records of its
authority section: `msg.Pack()` stores there the length of the packed name
`a.gtld-servers.net.`, 19 bytes and one more.  The record sections are not as
they were. -/
theorem worker.send_rdlength_counterexample :
    referralMsg.Ns = [some (RR.ns "com." 60 "a.gtld-servers.net."),
                      some (RR.ns "com." 60 "b.gtld-servers.net.")] ∧
    (RR.ns "com." 60 "a.gtld-servers.net.").Hdr.Rdlength = 0 ∧
    (worker.send examplePack lowerPacket referralMsg).1.Ns
      = [some { RR.ns "com." 60 "a.gtld-servers.net." with
                Hdr := { (RR.ns "com." 60 "a.gtld-servers.net.").Hdr with Rdlength := 20 } },
         some { RR.ns "com." 60 "b.gtld-servers.net." with
                Hdr := { (RR.ns "com." 60 "b.gtld-servers.net.").Hdr with Rdlength := 20 } }] ∧
    (worker.send examplePack lowerPacket referralMsg).1.Ns ≠ referralMsg.Ns := by
  refine ⟨by decide, by decide, by decide, by decide⟩

/-- C7, amended: `worker.send` leaves a message with `Response` and
`RecursionAvailable` set, with `Rcode` NXDOMAIN when the answer section is empty
and Success otherwise (whatever it was before), and with `Id` and `Question` as
they were; the records of the three sections are as they were but for their
`Hdr.Rdlength`, which `msg.Pack()` writes; the packet sent, if packing succeeds,
carries the bytes that `Pack` made of the message with the new header.  The
hypothesis is that `Pack` writes nothing but `Rdlength` fields to that message. -/
theorem worker.send_spec (pack : Msg → Msg × Option (List Nat)) (pkt : userPacket) (m : Msg)
    (hpack : (pack (worker.send.header m)).1.eraseRdlength
      = (worker.send.header m).eraseRdlength) :
    (worker.send pack pkt m).1.Response = true ∧
    (worker.send pack pkt m).1.RecursionAvailable = true ∧
    (worker.send pack pkt m).1.Rcode
      = (if m.Answer = [] then RcodeNameError else RcodeSuccess) ∧
    (worker.send pack pkt m).1.Id = m.Id ∧
    (worker.send pack pkt m).1.Question = m.Question ∧
    (worker.send pack pkt m).1.Answer.map RR.eraseRdlength = m.Answer.map RR.eraseRdlength ∧
    (worker.send pack pkt m).1.Ns.map RR.eraseRdlength = m.Ns.map RR.eraseRdlength ∧
    (worker.send pack pkt m).1.Extra.map RR.eraseRdlength = m.Extra.map RR.eraseRdlength ∧
    (worker.send pack pkt m).1.eraseRdlength
      = ({ m with Response := true, RecursionAvailable := true,
                  Rcode := (if m.Answer = [] then RcodeNameError else RcodeSuccess) }
          : Msg).eraseRdlength ∧
    (worker.send pack pkt m).1 = (pack (worker.send.header m)).1 ∧
    (worker.send pack pkt m).2
      = (pack (worker.send.header m)).2.map (fun d => { pkt with data := d }) := by
  have hfst : (worker.send pack pkt m).1 = (pack (worker.send.header m)).1 := by
    unfold worker.send
    split <;> simp_all
  have hsnd : (worker.send pack pkt m).2
      = (pack (worker.send.header m)).2.map (fun d => { pkt with data := d }) := by
    unfold worker.send
    split <;> simp_all
  have hhdr : worker.send.header m
      = { m with Response := true, RecursionAvailable := true,
                 Rcode := (if m.Answer = [] then RcodeNameError else RcodeSuccess) } := by
    unfold worker.send.header
    by_cases h : m.Answer = [] <;> simp [h]
  have hall : (worker.send pack pkt m).1.eraseRdlength
      = ({ m with Response := true, RecursionAvailable := true,
                  Rcode := (if m.Answer = [] then RcodeNameError else RcodeSuccess) }
          : Msg).eraseRdlength := by
    rw [hfst, hpack, hhdr]
  refine ⟨?_, ?_, ?_, ?_, ?_, ?_, ?_, ?_, hall, hfst, hsnd⟩
  · have := congrArg Msg.Response hall; simpa [Msg.eraseRdlength] using this
  · have := congrArg Msg.RecursionAvailable hall; simpa [Msg.eraseRdlength] using this
  · have := congrArg Msg.Rcode hall; simpa [Msg.eraseRdlength] using this
  · have := congrArg Msg.Id hall; simpa [Msg.eraseRdlength] using this
  · have := congrArg Msg.Question hall; simpa [Msg.eraseRdlength] using this
  · have := congrArg Msg.Answer hall; simpa [Msg.eraseRdlength] using this
  · have := congrArg Msg.Ns hall; simpa [Msg.eraseRdlength] using this
  · have := congrArg Msg.Extra hall; simpa [Msg.eraseRdlength] using this

/-- C7, amended, on the referral `referralMsg`: it has no answer, so it is sent as
NXDOMAIN, with its NS records as they were but for `Rdlength`. -/
theorem worker.send_spec_witness :
    (examplePack (worker.send.header referralMsg)).1.eraseRdlength
      = (worker.send.header referralMsg).eraseRdlength ∧
    (worker.send examplePack lowerPacket referralMsg).1.Rcode = RcodeNameError ∧
    (worker.send examplePack lowerPacket referralMsg).1.Ns.map RR.eraseRdlength
      = referralMsg.Ns.map RR.eraseRdlength :=
  ⟨by decide,
   ((worker.send_spec examplePack lowerPacket referralMsg (by decide)).2.2.1).trans
     (by decide),
   (worker.send_spec examplePack lowerPacket referralMsg (by decide)).2.2.2.2.2.2.1⟩

/-! ## Theorems on the cache key -/

/-- C8, refuted: the names `Example.COM.` and `example.com.` differ only in letter
case, yet the two A queries get the keys `a.Example.COM.` and `a.example.com.`;
an answer cached for the first is not found by the second. -/
theorem getQuetion_case_counterexample :
    asciiLower "Example.COM." = "example.com." ∧
    getQuetion asciiLower typeMnemonic upperQuery = some "a.Example.COM." ∧
    getQuetion asciiLower typeMnemonic upperResponse = some "a.Example.COM." ∧
    getQuetion asciiLower typeMnemonic lowerQuery = some "a.example.com." ∧
    getQuetion asciiLower typeMnemonic upperQuery
      ≠ getQuetion asciiLower typeMnemonic lowerQuery ∧
    ((server.cacheMsg asciiLower typeMnemonic NewTrie upperResponse 0).bind
      (fun cache => (worker.resolveCache asciiLower typeMnemonic cache lowerQuery 0 0).map
        (fun res => res.2.2))) = some false ∧
    ((server.cacheMsg asciiLower typeMnemonic NewTrie upperResponse 0).bind
      (fun cache => (worker.resolveCache asciiLower typeMnemonic cache upperQuery 0 0).map
        (fun res => res.2.2))) = some true := by
  refine ⟨by decide, by decide, by decide, by decide, by decide, by decide, by decide⟩

/-- C8, amended: the cache key is the lower-cased mnemonic of the type of the first
question, a dot, and the name of that question as it stands (its letter case is
kept); two messages asking for the same type have the same key exactly when
their names are equal; and the write to the cache and the lookup both address
the trie by this key. -/
theorem getQuetion_key (lower : String → String) (typeToString : Nat → String)
    (m : Msg) (q : Question) (qs : List Question) (hq : m.Question = q :: qs) :
    getQuetion lower typeToString m = some (lower (typeToString q.Qtype) ++ "." ++ q.Name) ∧
    (∀ (m2 : Msg) (q2 : Question) (qs2 : List Question), m2.Question = q2 :: qs2 →
      q2.Qtype = q.Qtype →
      (getQuetion lower typeToString m2 = getQuetion lower typeToString m ↔
        q2.Name = q.Name)) ∧
    (∀ (cache : Trie Value) (now : Time) (r : Record), NewRecord m now = some (some r) →
      server.cacheMsg lower typeToString cache m now
        = some (cache.Insert (lower (typeToString q.Qtype) ++ "." ++ q.Name)
            (some (Value.record r)))) ∧
    (∀ (cache : Trie Value) (now1 now2 : Time),
      worker.resolveCache lower typeToString cache m now1 now2
        = (cache.Get (lower (typeToString q.Qtype) ++ "." ++ q.Name) now1 now2).map
            (fun res =>
              match res.2 with
              | none => (res.1, m, false)
              | some r => (res.1, { m with Answer := r.Msg.Answer },
                  decide (r.Msg.Answer.length > 0)))) := by
  have hkey : getQuetion lower typeToString m
      = some (lower (typeToString q.Qtype) ++ "." ++ q.Name) := by
    simp [getQuetion, hq]
  refine ⟨hkey, ?_, ?_, ?_⟩
  · intro m2 q2 qs2 hq2 hty
    have hkey2 : getQuetion lower typeToString m2
        = some (lower (typeToString q2.Qtype) ++ "." ++ q2.Name) := by
      simp [getQuetion, hq2]
    rw [hkey, hkey2, hty]
    constructor
    · intro h
      have h2 := Option.some.inj h
      have h3 : (lower (typeToString q.Qtype) ++ "." ++ q2.Name).data
          = (lower (typeToString q.Qtype) ++ "." ++ q.Name).data := by rw [h2]
      simp only [String.data_append] at h3
      exact String.ext (List.append_cancel_left h3)
    · intro h
      rw [h]
  · intro cache now r hr
    simp [server.cacheMsg, hr, hkey]
  · intro cache now1 now2
    simp only [worker.resolveCache, hkey]
    cases hget : cache.Get (lower (typeToString q.Qtype) ++ "." ++ q.Name) now1 now2 with
    | none => rfl
    | some res =>
        obtain ⟨c1, r⟩ := res
        cases r <;> rfl

/-- C8, amended, on the A query for `Example.COM.`. -/
theorem getQuetion_key_witness :
    upperQuery.Question = [{ Name := "Example.COM.", Qtype := TypeA, Qclass := 1 }] ∧
    getQuetion asciiLower typeMnemonic upperQuery = some "a.Example.COM." :=
  ⟨rfl, (getQuetion_key asciiLower typeMnemonic upperQuery
      { Name := "Example.COM.", Qtype := TypeA, Qclass := 1 } [] rfl).1.trans (by decide)⟩

/-! ## Theorems on the worker pool -/

theorem newWorkerPool.loop_length (cfg : Config) (fuel : Nat) (i : Int) (ws : List worker)
    (h : i + fuel = cfg.WorkerPoolMin) :
    (newWorkerPool.loop cfg fuel i ws).length = ws.length + fuel := by
  induction fuel generalizing i ws with
  | zero => simp [newWorkerPool.loop]
  | succ n ih =>
      have hlt : i < cfg.WorkerPoolMin := by push_cast at h; omega
      have hnext : (i + 1) + (n : Int) = cfg.WorkerPoolMin := by push_cast at h; omega
      simp only [newWorkerPool.loop, hlt, if_true]
      rw [ih (i + 1) (newWorker cfg :: ws) hnext]
      simp only [List.length_cons]
      omega

theorem newWorkerPool_size (cfg : Config) (h : 0 ≤ cfg.WorkerPoolMin) :
    (newWorkerPool cfg).size = cfg.WorkerPoolMin := by
  have hfuel : (0 : Int) + (cfg.WorkerPoolMin.toNat : Int) = cfg.WorkerPoolMin := by
    rw [Int.toNat_of_nonneg h]; omega
  simp only [workerPool.size, newWorkerPool]
  rw [newWorkerPool.loop_length cfg _ 0 [] hfuel]
  simp only [List.length_nil, Nat.zero_add]
  exact Int.toNat_of_nonneg h

theorem workerPool.openOne_size (cfg : Config) (wp : workerPool) :
    (wp.openOne cfg).size = if wp.size < wp.max then wp.size + 1 else wp.size := by
  unfold workerPool.openOne
  split
  · simp [workerPool.size]
  · rfl

theorem workerPool.closeOne_size (wp : workerPool) (h : 0 ≤ wp.min) :
    wp.closeOne.size = if wp.size > wp.min then wp.size - 1 else wp.size := by
  unfold workerPool.closeOne
  split
  · rename_i hgt
    have hpos : 0 < wp.workers.length := by
      simp only [workerPool.size] at hgt
      omega
    simp only [workerPool.size, List.length_tail]
    omega
  · rfl

theorem workerPool.openOne_bounds (cfg : Config) (wp : workerPool) :
    (wp.openOne cfg).min = wp.min ∧ (wp.openOne cfg).max = wp.max := by
  unfold workerPool.openOne
  split <;> exact ⟨rfl, rfl⟩

theorem workerPool.closeOne_bounds (wp : workerPool) :
    wp.closeOne.min = wp.min ∧ wp.closeOne.max = wp.max := by
  unfold workerPool.closeOne
  split <;> exact ⟨rfl, rfl⟩

theorem workerPool.run_inv (cfg : Config) (ops : List poolOp) (wp : workerPool)
    (h0 : 0 ≤ wp.min) (hlo : wp.min ≤ wp.size) (hhi : wp.size ≤ wp.max) :
    (wp.run cfg ops).min = wp.min ∧ (wp.run cfg ops).max = wp.max ∧
    wp.min ≤ (wp.run cfg ops).size ∧ (wp.run cfg ops).size ≤ wp.max := by
  induction ops generalizing wp with
  | nil => exact ⟨rfl, rfl, hlo, hhi⟩
  | cons op rest ih =>
      have hstep : (workerPool.step cfg wp op).min = wp.min ∧
          (workerPool.step cfg wp op).max = wp.max ∧
          wp.min ≤ (workerPool.step cfg wp op).size ∧
          (workerPool.step cfg wp op).size ≤ wp.max := by
        cases op with
        | openOne =>
            refine ⟨(workerPool.openOne_bounds cfg wp).1, (workerPool.openOne_bounds cfg wp).2,
              ?_, ?_⟩
            · show wp.min ≤ (wp.openOne cfg).size
              rw [workerPool.openOne_size]; split <;> omega
            · show (wp.openOne cfg).size ≤ wp.max
              rw [workerPool.openOne_size]; split <;> omega
        | closeOne =>
            refine ⟨(workerPool.closeOne_bounds wp).1, (workerPool.closeOne_bounds wp).2,
              ?_, ?_⟩
            · show wp.min ≤ wp.closeOne.size
              rw [workerPool.closeOne_size wp h0]; split <;> omega
            · show wp.closeOne.size ≤ wp.max
              rw [workerPool.closeOne_size wp h0]; split <;> omega
      obtain ⟨e1, e2, e3, e4⟩ := hstep
      have := ih (workerPool.step cfg wp op) (by rw [e1]; exact h0) (by rw [e1]; exact e3)
        (by rw [e2]; exact e4)
      rw [e1, e2] at this
      simpa [workerPool.run] using this

/-- C9: for a configuration with `1 ≤ min ≤ max`, the pool made by `newWorkerPool` has
`min` workers, and after every sequence of `openOne` and `closeOne` calls its
size is within `[min, max]`; `openOne` changes the size of any pool by +1 or 0
and `closeOne` by -1 or 0. -/
theorem workerPool.size_bounds (cfg : Config) (h1 : 1 ≤ cfg.WorkerPoolMin)
    (h2 : cfg.WorkerPoolMin ≤ cfg.WorkerPoolMax) (ops : List poolOp) :
    (newWorkerPool cfg).size = cfg.WorkerPoolMin ∧
    cfg.WorkerPoolMin ≤ ((newWorkerPool cfg).run cfg ops).size ∧
    ((newWorkerPool cfg).run cfg ops).size ≤ cfg.WorkerPoolMax ∧
    (∀ wp : workerPool,
      (wp.openOne cfg).size = wp.size + 1 ∨ (wp.openOne cfg).size = wp.size) ∧
    (∀ wp : workerPool, wp.closeOne.size = wp.size - 1 ∨ wp.closeOne.size = wp.size) := by
  have hsize := newWorkerPool_size cfg (by omega)
  have hinv := workerPool.run_inv cfg ops (newWorkerPool cfg)
    (by show 0 ≤ cfg.WorkerPoolMin; omega)
    (by show cfg.WorkerPoolMin ≤ (newWorkerPool cfg).size; omega)
    (by show (newWorkerPool cfg).size ≤ cfg.WorkerPoolMax; omega)
  refine ⟨hsize, hinv.2.2.1, hinv.2.2.2, ?_, ?_⟩
  · intro wp
    rw [workerPool.openOne_size]
    split
    · exact Or.inl rfl
    · exact Or.inr rfl
  · intro wp
    unfold workerPool.closeOne
    split
    · cases hw : wp.workers with
      | nil => right; simp [workerPool.size, hw]
      | cons w ws => left; simp [workerPool.size, hw]
    · exact Or.inr rfl

/-- C9, for a pool of 2 to 5 workers and five calls: four `openOne` calls stop at 5
workers. -/
theorem workerPool.size_bounds_witness :
    (1 ≤ exampleConfig.WorkerPoolMin ∧ exampleConfig.WorkerPoolMin ≤ exampleConfig.WorkerPoolMax) ∧
    (newWorkerPool exampleConfig).size = 2 ∧
    ((newWorkerPool exampleConfig).run exampleConfig
      [poolOp.openOne, poolOp.openOne, poolOp.openOne, poolOp.openOne, poolOp.closeOne]).size
        ≤ 5 :=
  ⟨by decide,
   (workerPool.size_bounds exampleConfig (by decide) (by decide) []).1,
   (workerPool.size_bounds exampleConfig (by decide) (by decide)
      [poolOp.openOne, poolOp.openOne, poolOp.openOne, poolOp.openOne, poolOp.closeOne]).2.2.1⟩

/-! ## Theorems on `server.recv` -/

/-- C10, refuted: with `min = 2` and `max = 5`, an enqueue that observes depth 3 grows
the pool to 3 workers; a following enqueue that observes depth 2 (at `min`, the
pool above `min`) leaves the pool at 3 workers instead of shrinking it to 2. -/
theorem server.recv_depth_at_min_counterexample :
    exampleServer.config.WorkerPoolMin = 2 ∧
    (exampleServer.recv 3 3).pool.size = 3 ∧
    ((exampleServer.recv 3 3).recv 2 2).pool.size = 3 ∧
    ((exampleServer.recv 3 3).recv 2 2).pool.size ≠ (exampleServer.recv 3 3).pool.size - 1 := by
  refine ⟨by decide, by decide, by decide, by decide⟩

/-- C10, amended: on an enqueue that observes depth `d`, in a server whose pool has
the lower bound of the configuration, `min ≥ 0`: if `d` is above `min` the pool grows by
exactly one worker unless its size has reached `max`; if `d` is below `min` the
pool shrinks by exactly one worker unless its size is at (or below) `min`; and
if `d` equals `min` the pool is left as it is. -/
theorem server.recv_spec (s : server) (d : Int)
    (hmin : s.pool.min = s.config.WorkerPoolMin) (h0 : 0 ≤ s.pool.min) :
    (s.config.WorkerPoolMin < d →
      (s.recv d d).pool.size = if s.pool.size < s.pool.max then s.pool.size + 1
        else s.pool.size) ∧
    (d < s.config.WorkerPoolMin →
      (s.recv d d).pool.size = if s.pool.size > s.config.WorkerPoolMin then s.pool.size - 1
        else s.pool.size) ∧
    (d = s.config.WorkerPoolMin → s.recv d d = s) := by
  refine ⟨?_, ?_, ?_⟩
  · intro hd
    have hgt : d > s.config.WorkerPoolMin := hd
    simp only [server.recv, hgt, if_true]
    exact workerPool.openOne_size _ _
  · intro hd
    have hng : ¬ d > s.config.WorkerPoolMin := by omega
    simp only [server.recv, hng, if_false, hd, if_true]
    rw [← hmin]
    exact workerPool.closeOne_size _ h0
  · intro hd
    have hng : ¬ d > s.config.WorkerPoolMin := by omega
    have hnl : ¬ d < s.config.WorkerPoolMin := by omega
    simp only [server.recv, hng, hnl, if_false]

/-- C10, amended, on the server with `min = 2`, `max = 5` and 3 workers: depth 1
shrinks the pool to 2 workers, depth 2 leaves it unchanged. -/
theorem server.recv_spec_witness :
    ((exampleServer.recv 3 3).pool.min = (exampleServer.recv 3 3).config.WorkerPoolMin ∧
      0 ≤ (exampleServer.recv 3 3).pool.min) ∧
    ((exampleServer.recv 3 3).recv 1 1).pool.size = 2 ∧
    (exampleServer.recv 3 3).recv 2 2 = exampleServer.recv 3 3 :=
  ⟨by decide,
   ((server.recv_spec (exampleServer.recv 3 3) 1 (by decide) (by decide)).2.1
      (by decide)).trans (by decide),
   (server.recv_spec (exampleServer.recv 3 3) 2 (by decide) (by decide)).2.2 (by decide)⟩

/-! ## Theorems on `Config.check` -/

theorem wrapInt_eq (x : Int) (h1 : -(2 ^ 63) ≤ x) (h2 : x < 2 ^ 63) : wrapInt x = x := by
  unfold wrapInt
  rw [Int.emod_eq_of_lt (by omega) (by omega)]
  omega

/-- C11, refuted: with `WorkerPoolMin` the largest 64-bit `int` and `WorkerPoolMax = 0`,
both in range, `check` computes `WorkerPoolMin + 10`, which wraps around to
`-2^63 + 9`; afterwards `WorkerPoolMin ≤ WorkerPoolMax` does not hold. -/
theorem Config.check_overflow_counterexample :
    (-(2 ^ 63) ≤ hugeConfig.WorkerPoolMin ∧ hugeConfig.WorkerPoolMin < 2 ^ 63) ∧
    (-(2 ^ 63) ≤ hugeConfig.WorkerPoolMax ∧ hugeConfig.WorkerPoolMax < 2 ^ 63) ∧
    hugeConfig.check.WorkerPoolMin = 2 ^ 63 - 1 ∧
    hugeConfig.check.WorkerPoolMax = -(2 ^ 63) + 9 ∧
    ¬ (hugeConfig.check.WorkerPoolMin ≤ hugeConfig.check.WorkerPoolMax) := by
  refine ⟨by decide, by decide, by decide, by decide, by decide⟩

/-- C11, amended: `check` sets `WorkerPoolMin` to 1 when it is below 1, then sets
`WorkerPoolMax` to `WorkerPoolMin + 10`, wrapped around to 64 bits (the exact sum
when `WorkerPoolMin` is at most `2^63 - 11`), when it is below `WorkerPoolMin`, and
changes no other field.  Afterwards `1 ≤ WorkerPoolMin` holds for every
configuration, and `WorkerPoolMin ≤ WorkerPoolMax` holds exactly when
`WorkerPoolMax` was at least the new `WorkerPoolMin` or `WorkerPoolMin` is at most
`2^63 - 11`.  A configuration that already satisfies
`1 ≤ WorkerPoolMin ≤ WorkerPoolMax` is unchanged.  Only the last but one statement
needs `WorkerPoolMin` to be a 64-bit value. -/
theorem Config.check_spec (cfg : Config) :
    cfg.check.WorkerPoolMin = (if cfg.WorkerPoolMin < 1 then 1 else cfg.WorkerPoolMin) ∧
    cfg.check.WorkerPoolMax
      = (if cfg.WorkerPoolMax < cfg.check.WorkerPoolMin
         then wrapInt (cfg.check.WorkerPoolMin + 10) else cfg.WorkerPoolMax) ∧
    (cfg.WorkerPoolMin ≤ 2 ^ 63 - 11 →
      wrapInt (cfg.check.WorkerPoolMin + 10) = cfg.check.WorkerPoolMin + 10) ∧
    cfg.check.Addr = cfg.Addr ∧ cfg.check.UpServers = cfg.UpServers ∧
    cfg.check.WithCache = cfg.WithCache ∧ cfg.check.CacheFile = cfg.CacheFile ∧
    1 ≤ cfg.check.WorkerPoolMin ∧
    (cfg.WorkerPoolMin < 2 ^ 63 →
      (cfg.check.WorkerPoolMin ≤ cfg.check.WorkerPoolMax ↔
        (cfg.check.WorkerPoolMin ≤ cfg.WorkerPoolMax ∨ cfg.WorkerPoolMin ≤ 2 ^ 63 - 11))) ∧
    (1 ≤ cfg.WorkerPoolMin → cfg.WorkerPoolMin ≤ cfg.WorkerPoolMax → cfg.check = cfg) := by
  have hmin : cfg.check.WorkerPoolMin
      = (if cfg.WorkerPoolMin < 1 then 1 else cfg.WorkerPoolMin) := by
    unfold Config.check
    by_cases h1 : cfg.WorkerPoolMin < 1 <;> by_cases h2 : cfg.WorkerPoolMax < 1 <;>
      by_cases h3 : cfg.WorkerPoolMax < cfg.WorkerPoolMin <;> simp [h1, h2, h3]
  have hmax : cfg.check.WorkerPoolMax
      = (if cfg.WorkerPoolMax < cfg.check.WorkerPoolMin
         then wrapInt (cfg.check.WorkerPoolMin + 10) else cfg.WorkerPoolMax) := by
    rw [hmin]
    unfold Config.check
    by_cases h1 : cfg.WorkerPoolMin < 1 <;> by_cases h2 : cfg.WorkerPoolMax < 1 <;>
      by_cases h3 : cfg.WorkerPoolMax < cfg.WorkerPoolMin <;> simp [h1, h2, h3]
  have hrest : cfg.check.Addr = cfg.Addr ∧ cfg.check.UpServers = cfg.UpServers ∧
      cfg.check.WithCache = cfg.WithCache ∧ cfg.check.CacheFile = cfg.CacheFile := by
    unfold Config.check
    by_cases h1 : cfg.WorkerPoolMin < 1 <;> by_cases h2 : cfg.WorkerPoolMax < 1 <;>
      by_cases h3 : cfg.WorkerPoolMax < cfg.WorkerPoolMin <;> simp [h1, h2, h3]
  have hone : 1 ≤ cfg.check.WorkerPoolMin := by
    rw [hmin]; split <;> omega
  have hle : cfg.WorkerPoolMin ≤ cfg.check.WorkerPoolMin := by
    rw [hmin]; split <;> omega
  have hw : ∀ x : Int, 1 ≤ x → x ≤ 2 ^ 63 - 11 → wrapInt (x + 10) = x + 10 := by
    intro x h1 h2
    exact wrapInt_eq _ (by omega) (by omega)
  have hover : ∀ x : Int, 2 ^ 63 - 11 < x → x < 2 ^ 63 → wrapInt (x + 10) < x := by
    intro x h1 h2
    unfold wrapInt
    omega
  have hbound : cfg.WorkerPoolMin ≤ 2 ^ 63 - 11 → cfg.check.WorkerPoolMin ≤ 2 ^ 63 - 11 := by
    intro h; rw [hmin]; split <;> omega
  refine ⟨hmin, hmax, fun h => hw _ hone (hbound h), hrest.1, hrest.2.1, hrest.2.2.1,
    hrest.2.2.2, hone, ?_, ?_⟩
  · intro hr
    have hr2 : cfg.check.WorkerPoolMin < 2 ^ 63 := by
      rw [hmin]; split <;> omega
    constructor
    · intro h
      by_cases hlt : cfg.WorkerPoolMax < cfg.check.WorkerPoolMin
      · right
        rw [hmax, if_pos hlt] at h
        by_contra hb
        have hb2 : 2 ^ 63 - 11 < cfg.check.WorkerPoolMin := by omega
        have := hover _ hb2 hr2
        omega
      · left; omega
    · rintro (h | h)
      · rw [hmax, if_neg (by omega)]; exact h
      · rw [hmax]
        split
        · rw [hw _ hone (hbound h)]; omega
        · omega
  · intro h1 h2
    unfold Config.check
    have a1 : ¬ cfg.WorkerPoolMin < 1 := by omega
    have a2 : ¬ cfg.WorkerPoolMax < cfg.WorkerPoolMin := by omega
    simp [a1, a2]

/-- C11, amended, on the configuration `min = 0`, `max = -3`: it becomes `1` and `11`,
and `WorkerPoolMin ≤ WorkerPoolMax` holds afterwards. -/
theorem Config.check_spec_witness :
    ((0 : Int) < 2 ^ 63 ∧ (0 : Int) ≤ 2 ^ 63 - 11) ∧
    ({ exampleConfig with WorkerPoolMin := 0, WorkerPoolMax := -3 } : Config).check.WorkerPoolMin
      = 1 ∧
    ({ exampleConfig with WorkerPoolMin := 0, WorkerPoolMax := -3 } : Config).check.WorkerPoolMax
      = 11 ∧
    ({ exampleConfig with WorkerPoolMin := 0, WorkerPoolMax := -3 } : Config).check.WorkerPoolMin
      ≤ ({ exampleConfig with WorkerPoolMin := 0,
                              WorkerPoolMax := -3 } : Config).check.WorkerPoolMax :=
  ⟨by decide,
   ((Config.check_spec
      { exampleConfig with WorkerPoolMin := 0, WorkerPoolMax := -3 }).1).trans (by decide),
   ((Config.check_spec
      { exampleConfig with WorkerPoolMin := 0, WorkerPoolMax := -3 }).2.1).trans (by decide),
   ((Config.check_spec
      { exampleConfig with WorkerPoolMin := 0,
                           WorkerPoolMax := -3 }).2.2.2.2.2.2.2.2.1 (by decide)).2
      (Or.inr (by decide))⟩

/-! ## Theorems on `resolver.resolving` and `newResolver` -/

theorem makeBytes_length (n : Nat) : (makeBytes n).length = n := by
  simp [makeBytes]

theorem resolver.resolving.loop_grow (unpack : List Nat → Except Error Msg)
    (handle : resolvingHandleFunc) (data : List Nat) (server : String) (fuel pckSize : Nat)
    (recv : List Nat) (log : List (String × Nat))
    (hh : (handle log.length server data recv).2 = none)
    (hu : unpack (handle log.length server data recv).1 = Except.error Error.ErrBuf)
    (hsize : pckSize ≠ 4096) :
    resolver.resolving.loop unpack handle data server (fuel + 1) pckSize recv log
      = resolver.resolving.loop unpack handle data server fuel (pckSize * 2)
          (makeBytes (pckSize * 2)) (log ++ [(server, recv.length)]) := by
  rcases hr : handle log.length server data recv with ⟨r1, e1⟩
  rw [hr] at hh hu
  simp only at hh hu
  subst hh
  simp only [resolver.resolving.loop, hr, hu, if_true, hsize, if_false]

theorem resolver.resolving.loop_huge (unpack : List Nat → Except Error Msg)
    (handle : resolvingHandleFunc) (data : List Nat) (server : String) (fuel : Nat)
    (recv : List Nat) (log : List (String × Nat))
    (hh : (handle log.length server data recv).2 = none)
    (hu : unpack (handle log.length server data recv).1 = Except.error Error.ErrBuf) :
    resolver.resolving.loop unpack handle data server (fuel + 1) 4096 recv log
      = some (log ++ [(server, recv.length)], Except.error (some Error.ErrHugePacket)) := by
  rcases hr : handle log.length server data recv with ⟨r1, e1⟩
  rw [hr] at hh hu
  simp only at hh hu
  subst hh
  simp only [resolver.resolving.loop, hr, hu, if_true]

/-- The first loop of `resolving` makes at most four rounds: with fuel for the rounds
that are left at the buffer size reached, it returns. -/
theorem resolver.resolving.loop_returns (unpack : List Nat → Except Error Msg)
    (handle : resolvingHandleFunc) (data : List Nat) (server : String) (fuel pckSize : Nat)
    (recv : List Nat) (log : List (String × Nat))
    (h : (pckSize = 512 ∧ 4 ≤ fuel) ∨ (pckSize = 1024 ∧ 3 ≤ fuel) ∨
      (pckSize = 2048 ∧ 2 ≤ fuel) ∨ (pckSize = 4096 ∧ 1 ≤ fuel)) :
    (resolver.resolving.loop unpack handle data server fuel pckSize recv log).isSome = true := by
  induction fuel generalizing pckSize recv log with
  | zero => omega
  | succ f ih =>
      rcases hr : handle log.length server data recv with ⟨r1, e1⟩
      cases e1 with
      | some err => simp [resolver.resolving.loop, hr]
      | none =>
          cases hu : unpack r1 with
          | ok msg => simp [resolver.resolving.loop, hr, hu]
          | error err =>
              by_cases hb : err = Error.ErrBuf
              · by_cases h4 : pckSize = 4096
                · simp [resolver.resolving.loop, hr, hu, hb, h4]
                · simp only [resolver.resolving.loop, hr, hu, hb, h4, if_true, if_false]
                  exact ih _ _ _ (by omega)
              · simp [resolver.resolving.loop, hr, hu, hb]

/-- With fuel for four rounds `resolving` returns, whatever the network does. -/
theorem resolver.resolving_returns (unpack : List Nat → Except Error Msg)
    (doWithTCP handle : resolvingHandleFunc) (r : resolver) (data : List Nat) (server : String)
    (fuel : Nat) (hfuel : 4 ≤ fuel) :
    (resolver.resolving unpack doWithTCP r fuel data server handle).isSome = true := by
  have hl := resolver.resolving.loop_returns unpack handle data server fuel 512 (makeBytes 512) []
    (Or.inl ⟨rfl, hfuel⟩)
  cases hloop : resolver.resolving.loop unpack handle data server fuel 512 (makeBytes 512) [] with
  | none => simp [hloop] at hl
  | some res =>
      obtain ⟨handled, out⟩ := res
      cases out with
      | ok msg => simp [resolver.resolving, hloop]
      | error err =>
          by_cases ht : err = some Error.ErrTruncated
          · simp [resolver.resolving, hloop, ht]
          · cases err with
            | none => simp [resolver.resolving, hloop]
            | some e => simp [resolver.resolving, hloop, ht]

/-- The first loop of `resolving` calls the handler for the server it was given. -/
theorem resolver.resolving.loop_servers (unpack : List Nat → Except Error Msg)
    (handle : resolvingHandleFunc) (data : List Nat) (server : String) (fuel pckSize : Nat)
    (recv : List Nat) (log out : List (String × Nat)) (res : Except (Option Error) Msg)
    (h : resolver.resolving.loop unpack handle data server fuel pckSize recv log
      = some (out, res)) :
    ∀ p ∈ out, p ∈ log ∨ p.1 = server := by
  induction fuel generalizing pckSize recv log with
  | zero => simp [resolver.resolving.loop] at h
  | succ f ih =>
      have hstep : ∀ p ∈ log ++ [(server, recv.length)], p ∈ log ∨ p.1 = server := by
        intro p hp
        rcases List.mem_append.1 hp with hp | hp
        · exact Or.inl hp
        · right; simp only [List.mem_singleton] at hp; rw [hp]
      rcases hr : handle log.length server data recv with ⟨r1, e1⟩
      cases e1 with
      | some err =>
          simp only [resolver.resolving.loop, hr, Option.some.injEq, Prod.mk.injEq] at h
          rw [← h.1]; exact hstep
      | none =>
          cases hu : unpack r1 with
          | ok msg =>
              simp only [resolver.resolving.loop, hr, hu, Option.some.injEq, Prod.mk.injEq] at h
              rw [← h.1]; exact hstep
          | error err =>
              by_cases hb : err = Error.ErrBuf
              · by_cases h4 : pckSize = 4096
                · simp only [resolver.resolving.loop, hr, hu, hb, h4, if_true,
                    Option.some.injEq, Prod.mk.injEq] at h
                  rw [← h.1]; exact hstep
                · simp only [resolver.resolving.loop, hr, hu, hb, h4, if_true, if_false] at h
                  intro p hp
                  rcases ih _ _ _ h p hp with hp2 | hp2
                  · exact hstep p hp2
                  · exact Or.inr hp2
              · simp only [resolver.resolving.loop, hr, hu, hb, if_false, Option.some.injEq,
                  Prod.mk.injEq] at h
                rw [← h.1]; exact hstep

/-- The loop of `resolving` that follows a truncation calls `doWithTCP` for servers of
the list it ranges over. -/
theorem resolver.resolving.tcpLoop_servers (unpack : List Nat → Except Error Msg)
    (doWithTCP : resolvingHandleFunc) (data : List Nat) (l : List String) (err : Error)
    (log : List String) :
    ∀ s ∈ (resolver.resolving.tcpLoop unpack doWithTCP data l err log).1, s ∈ log ∨ s ∈ l := by
  induction l generalizing err log with
  | nil => intro s hs; exact Or.inl (by simpa [resolver.resolving.tcpLoop] using hs)
  | cons a rest ih =>
      have hstep : ∀ s ∈ log ++ [a], s ∈ log ∨ s ∈ a :: rest := by
        intro s hs
        rcases List.mem_append.1 hs with hs | hs
        · exact Or.inl hs
        · right; simp only [List.mem_singleton] at hs; rw [hs]; exact List.mem_cons_self _ _
      have hrec : ∀ e, ∀ s ∈ (resolver.resolving.tcpLoop unpack doWithTCP data rest e
          (log ++ [a])).1, s ∈ log ∨ s ∈ a :: rest := by
        intro e s hs
        rcases ih e (log ++ [a]) s hs with hs2 | hs2
        · exact hstep s hs2
        · exact Or.inr (List.mem_cons_of_mem _ hs2)
      rcases hr : doWithTCP log.length a data (makeBytes (2 ^ 12)) with ⟨r1, e1⟩
      cases e1 with
      | some e =>
          simp only [resolver.resolving.tcpLoop, hr]
          exact hrec e
      | none =>
          cases hu : unpack r1 with
          | ok msg =>
              simp only [resolver.resolving.tcpLoop, hr, hu]
              exact hstep
          | error e =>
              simp only [resolver.resolving.tcpLoop, hr, hu]
              exact hrec e

/-- A call of `resolving` calls its handler for the server it was given only, and
`doWithTCP`, after a truncation, for servers of `r.servers` only. -/
theorem resolver.resolving_servers (unpack : List Nat → Except Error Msg)
    (doWithTCP handle : resolvingHandleFunc) (r : resolver) (data : List Nat) (server : String)
    (fuel : Nat) (nl : netLog) (res : Except Error Msg)
    (h : resolver.resolving unpack doWithTCP r fuel data server handle = some (nl, res)) :
    (∀ p ∈ nl.handled, p.1 = server) ∧ (∀ s ∈ nl.tcp, s ∈ r.servers) := by
  cases hloop : resolver.resolving.loop unpack handle data server fuel 512 (makeBytes 512) [] with
  | none => simp [resolver.resolving, hloop] at h
  | some out =>
      obtain ⟨handled, o⟩ := out
      have hh : ∀ p ∈ handled, p.1 = server := by
        intro p hp
        rcases resolver.resolving.loop_servers unpack handle data server fuel 512 _ [] handled o
          hloop p hp with hp2 | hp2
        · simp at hp2
        · exact hp2
      cases o with
      | ok msg =>
          simp only [resolver.resolving, hloop, Option.some.injEq, Prod.mk.injEq] at h
          rw [← h.1]
          exact ⟨hh, by simp⟩
      | error err =>
          by_cases ht : err = some Error.ErrTruncated
          · simp only [resolver.resolving, hloop, ht, if_true, Option.some.injEq,
              Prod.mk.injEq] at h
            rw [← h.1]
            refine ⟨hh, ?_⟩
            intro s hs
            rcases resolver.resolving.tcpLoop_servers unpack doWithTCP data r.servers
              Error.ErrTruncated [] s hs with hs2 | hs2
            · simp at hs2
            · exact hs2
          · cases err with
            | none =>
                simp only [resolver.resolving, hloop, reduceCtorEq, if_false,
                  Option.some.injEq, Prod.mk.injEq] at h
                rw [← h.1]
                exact ⟨hh, by simp⟩
            | some e =>
                simp only [resolver.resolving, hloop, ht, if_false, Option.some.injEq,
                  Prod.mk.injEq] at h
                rw [← h.1]
                exact ⟨hh, by simp⟩

theorem resolver.resolveWithServers.loop_contacts (net : Net) (r : resolver) (fuel : Nat)
    (data : List Nat) (all l : List String) (logs out : List netLog) (res : Except Error Msg)
    (h : resolver.resolveWithServers.loop net r fuel data l logs = some (out, res))
    (hl : ∀ s ∈ l, s ∈ all)
    (hlogs : ∀ nl ∈ logs, (∀ p ∈ nl.handled, p.1 ∈ all) ∧ (∀ s ∈ nl.tcp, s ∈ r.servers)) :
    ∀ nl ∈ out, (∀ p ∈ nl.handled, p.1 ∈ all) ∧ (∀ s ∈ nl.tcp, s ∈ r.servers) := by
  induction l generalizing logs with
  | nil =>
      simp only [resolver.resolveWithServers.loop, Option.some.injEq, Prod.mk.injEq] at h
      rw [← h.1]; exact hlogs
  | cons a rest ih =>
      have ha : a ∈ all := hl a (List.mem_cons_self _ _)
      have hrest : ∀ s ∈ rest, s ∈ all := fun s hs => hl s (List.mem_cons_of_mem _ hs)
      have hone : ∀ (handle : resolvingHandleFunc) (nl : netLog) (o : Except Error Msg),
          resolver.resolving net.unpack net.doWithTCP r fuel data a handle = some (nl, o) →
          (∀ p ∈ nl.handled, p.1 ∈ all) ∧ (∀ s ∈ nl.tcp, s ∈ r.servers) := by
        intro handle nl o hres
        have := resolver.resolving_servers _ _ _ _ _ _ _ nl o hres
        exact ⟨fun p hp => by rw [this.1 p hp]; exact ha, this.2⟩
      have hadd1 : ∀ l1, ((∀ p ∈ l1.handled, p.1 ∈ all) ∧ (∀ s ∈ l1.tcp, s ∈ r.servers)) →
          ∀ nl ∈ logs ++ [l1],
            (∀ p ∈ nl.handled, p.1 ∈ all) ∧ (∀ s ∈ nl.tcp, s ∈ r.servers) := by
        intro l1 h1 nl hnl
        rcases List.mem_append.1 hnl with hnl | hnl
        · exact hlogs nl hnl
        · simp only [List.mem_singleton] at hnl; rw [hnl]; exact h1
      have hadd2 : ∀ l1 l2, ((∀ p ∈ l1.handled, p.1 ∈ all) ∧ (∀ s ∈ l1.tcp, s ∈ r.servers)) →
          ((∀ p ∈ l2.handled, p.1 ∈ all) ∧ (∀ s ∈ l2.tcp, s ∈ r.servers)) →
          ∀ nl ∈ logs ++ [l1, l2],
            (∀ p ∈ nl.handled, p.1 ∈ all) ∧ (∀ s ∈ nl.tcp, s ∈ r.servers) := by
        intro l1 l2 h1 h2 nl hnl
        rcases List.mem_append.1 hnl with hnl | hnl
        · exact hlogs nl hnl
        · simp only [List.mem_cons, List.mem_singleton, List.not_mem_nil, or_false] at hnl
          rcases hnl with hnl | hnl
          · rw [hnl]; exact h1
          · rw [hnl]; exact h2
      cases h1 : resolver.resolving net.unpack net.doWithTCP r fuel data a net.doWithUDP with
      | none => simp [resolver.resolveWithServers.loop, h1] at h
      | some o1 =>
          obtain ⟨l1, o1⟩ := o1
          have hl1 := hone _ l1 o1 h1
          cases o1 with
          | ok m =>
              simp only [resolver.resolveWithServers.loop, h1, Option.some.injEq,
                Prod.mk.injEq] at h
              rw [← h.1]; exact hadd1 l1 hl1
          | error err =>
              by_cases ht : err = Error.ErrTruncated
              · cases h2 : resolver.resolving net.unpack net.doWithTCP r fuel data a
                    net.doWithTCP with
                | none => simp [resolver.resolveWithServers.loop, h1, ht, h2] at h
                | some o2 =>
                    obtain ⟨l2, o2⟩ := o2
                    have hl2 := hone _ l2 o2 h2
                    cases o2 with
                    | ok m =>
                        simp only [resolver.resolveWithServers.loop, h1, ht, h2, if_true,
                          Option.some.injEq, Prod.mk.injEq] at h
                        rw [← h.1]; exact hadd2 l1 l2 hl1 hl2
                    | error e2 =>
                        simp only [resolver.resolveWithServers.loop, h1, ht, h2, if_true] at h
                        exact ih _ h hrest (hadd2 l1 l2 hl1 hl2)
              · simp only [resolver.resolveWithServers.loop, h1, ht, if_false] at h
                exact ih _ h hrest (hadd1 l1 hl1)

/-- A call of `resolveWithServers` with a list of servers makes its UDP and TCP
exchanges with servers of that list, and the TCP exchanges that `resolving` makes
after a truncated reply with servers of `r.servers`. -/
theorem resolver.resolveWithServers_servers (net : Net) (r : resolver) (fuel : Nat)
    (msg : Msg) (servers : List String) (logs : List netLog) (res : Except Error Msg)
    (h : resolver.resolveWithServers net r fuel msg servers = some (logs, res)) :
    ∀ nl ∈ logs, (∀ p ∈ nl.handled, p.1 ∈ servers) ∧ (∀ s ∈ nl.tcp, s ∈ r.servers) := by
  cases hp : net.pack msg with
  | error err =>
      simp only [resolver.resolveWithServers, hp, Option.some.injEq, Prod.mk.injEq] at h
      rw [← h.1]; simp
  | ok data =>
      simp only [resolver.resolveWithServers, hp] at h
      exact resolver.resolveWithServers.loop_contacts net r fuel data servers servers [] logs res
        h (fun _ hs => hs) (by simp)

/-- With fuel for four rounds of `resolving`, `resolveWithServers` returns, whatever
the network does. -/
theorem resolver.resolveWithServers_returns (net : Net) (r : resolver) (fuel : Nat)
    (msg : Msg) (servers : List String) (hfuel : 4 ≤ fuel) :
    (resolver.resolveWithServers net r fuel msg servers).isSome = true := by
  have hloop : ∀ (data : List Nat) (l : List String) (logs : List netLog),
      (resolver.resolveWithServers.loop net r fuel data l logs).isSome = true := by
    intro data l
    induction l with
    | nil => intro logs; simp [resolver.resolveWithServers.loop]
    | cons a rest ih =>
        intro logs
        have r1 := resolver.resolving_returns net.unpack net.doWithTCP net.doWithUDP r data a
          fuel hfuel
        have r2 := resolver.resolving_returns net.unpack net.doWithTCP net.doWithTCP r data a
          fuel hfuel
        cases h1 : resolver.resolving net.unpack net.doWithTCP r fuel data a net.doWithUDP with
        | none => simp [h1] at r1
        | some o1 =>
            obtain ⟨l1, o1⟩ := o1
            cases o1 with
            | ok m => simp [resolver.resolveWithServers.loop, h1]
            | error err =>
                by_cases ht : err = Error.ErrTruncated
                · cases h2 : resolver.resolving net.unpack net.doWithTCP r fuel data a
                      net.doWithTCP with
                  | none => simp [h2] at r2
                  | some o2 =>
                      obtain ⟨l2, o2⟩ := o2
                      cases o2 with
                      | ok m => simp [resolver.resolveWithServers.loop, h1, ht, h2]
                      | error e2 =>
                          simp only [resolver.resolveWithServers.loop, h1, ht, h2, if_true]
                          exact ih _
                · simp only [resolver.resolveWithServers.loop, h1, ht, if_false]
                  exact ih _
  cases hp : net.pack msg with
  | error err => simp [resolver.resolveWithServers, hp]
  | ok data =>
      simp only [resolver.resolveWithServers, hp]
      exact hloop data servers []

/-- C20: when every call of the handler succeeds and every reply makes `Unpack` signal
`dns.ErrBuf`, `resolving` (given fuel for at least 4 rounds) calls the handler
exactly 4 times, with receive buffers of 512, 1024, 2048 and 4096 bytes, makes
no TCP retry, and returns `ErrHugePacket`. -/
theorem resolver.resolving_huge (unpack : List Nat → Except Error Msg)
    (doWithTCP handle : resolvingHandleFunc) (r : resolver) (data : List Nat) (server : String)
    (fuel : Nat) (hfuel : 4 ≤ fuel)
    (hh : ∀ n s d recv, (handle n s d recv).2 = none)
    (hu : ∀ n s d recv, unpack (handle n s d recv).1 = Except.error Error.ErrBuf) :
    resolver.resolving unpack doWithTCP r fuel data server handle
      = some ({ handled := [(server, 512), (server, 1024), (server, 2048), (server, 4096)],
                tcp := [] },
              Except.error Error.ErrHugePacket) := by
  obtain ⟨f, rfl⟩ : ∃ f, fuel = f + 1 + 1 + 1 + 1 := ⟨fuel - 4, by omega⟩
  have hloop : resolver.resolving.loop unpack handle data server (f + 1 + 1 + 1 + 1) 512
      (makeBytes 512) []
      = some ([(server, 512), (server, 1024), (server, 2048), (server, 4096)],
          Except.error (some Error.ErrHugePacket)) := by
    rw [resolver.resolving.loop_grow _ _ _ _ _ _ _ _ (hh _ _ _ _) (hu _ _ _ _) (by decide),
      resolver.resolving.loop_grow _ _ _ _ _ _ _ _ (hh _ _ _ _) (hu _ _ _ _) (by decide),
      resolver.resolving.loop_grow _ _ _ _ _ _ _ _ (hh _ _ _ _) (hu _ _ _ _) (by decide),
      resolver.resolving.loop_huge _ _ _ _ _ _ _ (hh _ _ _ _) (hu _ _ _ _)]
    simp only [makeBytes_length, List.nil_append, List.cons_append, List.singleton_append]
  simp [resolver.resolving, hloop]

/-- C20, for a peer whose every reply is too large for the buffer. -/
theorem resolver.resolving_huge_witness :
    4 ≤ 4 ∧
    resolver.resolving (fun _ => Except.error Error.ErrBuf) failHandle
        (newResolver (fun _ => true) exampleWorker [] 0) 4 [] "192.0.2.1" echoHandle
      = some ({ handled := [("192.0.2.1", 512), ("192.0.2.1", 1024), ("192.0.2.1", 2048),
                             ("192.0.2.1", 4096)],
                tcp := [] },
              Except.error Error.ErrHugePacket) :=
  ⟨le_refl 4,
   resolver.resolving_huge (fun _ => Except.error Error.ErrBuf) failHandle echoHandle
     (newResolver (fun _ => true) exampleWorker [] 0) [] "192.0.2.1" 4 (le_refl 4)
     (fun _ _ _ _ => rfl) (fun _ _ _ _ => rfl)⟩

set_option maxRecDepth 20000 in
/-- C16: a resolver made with no configured server opens its UDP connection to the
default `8.8.8.8` but keeps the empty list in `servers`, so after a truncation
`resolving` makes no TCP retry at all and returns the truncation error; a
resolver made with four configured servers opens connections to the first three
and retries over TCP against all four. -/
theorem resolver.servers_not_capped_example :
    (newResolver (fun _ => true) exampleWorker [] 0).conns = ["8.8.8.8"] ∧
    (newResolver (fun _ => true) exampleWorker [] 0).servers = [] ∧
    resolver.resolving (fun _ => Except.error Error.ErrTruncated) failHandle
        (newResolver (fun _ => true) exampleWorker [] 0) 4 [] "" echoHandle
      = some ({ handled := [("", 512)], tcp := [] }, Except.error Error.ErrTruncated) ∧
    (newResolver (fun _ => true) exampleWorker
        ["192.0.2.1", "192.0.2.2", "192.0.2.3", "192.0.2.4"] 0).conns
      = ["192.0.2.1", "192.0.2.2", "192.0.2.3"] ∧
    (resolver.resolving (fun _ => Except.error Error.ErrTruncated) failHandle
        (newResolver (fun _ => true) exampleWorker
          ["192.0.2.1", "192.0.2.2", "192.0.2.3", "192.0.2.4"] 0) 4 [] "" echoHandle).map
        (fun res => res.1.tcp)
      = some ["192.0.2.1", "192.0.2.2", "192.0.2.3", "192.0.2.4"] := by
  refine ⟨by decide, by decide, ?_, by decide, ?_⟩
  · rfl
  · rfl

/-! ## Theorems on `FindCname` -/

/-- When the second loop of `FindCname` returns, the name returned is reached from
the starting name by following the map, and is not a key of the map. -/
theorem FindCname.follow_some (x : List (String × String)) (fuel : Nat) (q n : String)
    (h : FindCname.follow fuel x q = some n) :
    Relation.ReflTransGen (fun a b => x.lookup a = some b) q n ∧ x.lookup n = none := by
  induction fuel generalizing q with
  | zero => simp [FindCname.follow] at h
  | succ f ih =>
      cases hl : x.lookup q with
      | none =>
          simp only [FindCname.follow, hl, Option.some.injEq] at h
          subst h
          exact ⟨Relation.ReflTransGen.refl, hl⟩
      | some t =>
          simp only [FindCname.follow, hl] at h
          obtain ⟨hreach, hend⟩ := ih t h
          exact ⟨Relation.ReflTransGen.head hl hreach, hend⟩

theorem FindCname.follow_cyclic (fuel : Nat) :
    FindCname.follow fuel [("b.example.", "a.example."), ("a.example.", "b.example.")]
        "a.example." = none ∧
    FindCname.follow fuel [("b.example.", "a.example."), ("a.example.", "b.example.")]
        "b.example." = none := by
  induction fuel with
  | zero => exact ⟨rfl, rfl⟩
  | succ f ih =>
      have ha : List.lookup "a.example." [("b.example.", "a.example."),
          ("a.example.", "b.example.")] = some "b.example." := by decide
      have hb : List.lookup "b.example." [("b.example.", "a.example."),
          ("a.example.", "b.example.")] = some "a.example." := by decide
      exact ⟨by simp only [FindCname.follow, ha, ih.2], by simp only [FindCname.follow, hb, ih.1]⟩

theorem FindCname.table_cyclicMsg :
    FindCname.table (cyclicMsg.Answer ++ cyclicMsg.Ns) []
      = [("b.example.", "a.example."), ("a.example.", "b.example.")] := by
  decide

theorem FindCname_cyclicMsg (fuel : Nat) : FindCname fuel cyclicMsg = Outcome.outOfFuel := by
  have hq : cyclicMsg.Question = [{ Name := "a.example.", Qtype := TypeA, Qclass := 1 }] := rfl
  simp only [FindCname, FindCname.table_cyclicMsg, hq, (FindCname.follow_cyclic fuel).1]
  rfl

/-- C15: on a response whose two CNAME records refer to each other (`a.example.` to
`b.example.` and back) and whose question asks for `a.example.`, the second loop
of `FindCname` never returns: whatever the fuel, the model has not returned when
the fuel is used up. -/
theorem FindCname_cyclic_never_returns (fuel : Nat) :
    cyclicMsg.Question = [{ Name := "a.example.", Qtype := TypeA, Qclass := 1 }] ∧
    FindCname.table (cyclicMsg.Answer ++ cyclicMsg.Ns) []
      = [("b.example.", "a.example."), ("a.example.", "b.example.")] ∧
    FindCname.follow fuel (FindCname.table (cyclicMsg.Answer ++ cyclicMsg.Ns) []) "a.example."
      = none ∧
    FindCname fuel cyclicMsg = Outcome.outOfFuel := by
  refine ⟨rfl, FindCname.table_cyclicMsg, ?_, FindCname_cyclicMsg fuel⟩
  rw [FindCname.table_cyclicMsg]
  exact (FindCname.follow_cyclic fuel).1

/-! ## Theorems on the iterative resolver -/

/-- C17: in an iterative resolution within its iteration limit and not timed out, a
response whose `Id` differs from that of the original query makes `resolve`
return `ErrInvalidResponse`, whatever else the response holds; the state changes
by the iteration count only and the trace by the clock reading only, so no
query is made and nothing is handed to the cache. -/
theorem iterativeResolver.resolve_id_mismatch (up : Upstream) (fuel : Nat)
    (ir : iterativeResolver) (tr : Trace) (msg : Msg)
    (hiter : ir.iters + 1 ≤ iterLimit)
    (htime : ir.resolver.isTimeout (up.now tr.reads) = false)
    (hid : ir.raw.Id ≠ msg.Id) :
    iterativeResolver.resolve up (fuel + 1) ir tr msg
      = Outcome.ok (Except.error Error.ErrInvalidResponse,
          { ir with iters := ir.iters + 1 },
          { tr with reads := tr.reads + 1 }) := by
  have hnot : ¬ (ir.iters + 1 > iterLimit) := by omega
  simp [iterativeResolver.resolve, iterativeResolver.isExceededTimes, hnot, htime, hid]

/-- C17, on a response that satisfies `GotAnswer` but carries the id 7 where the
query had the id 12. -/
theorem iterativeResolver.resolve_id_mismatch_witness :
    ((newIter (resolverAt 0) lowerQuery).iters + 1 ≤ iterLimit ∧
     (newIter (resolverAt 0) lowerQuery).resolver.isTimeout
        ((answeringUpstream 0).now Trace.start.reads) = false ∧
     (newIter (resolverAt 0) lowerQuery).raw.Id ≠ exampleMsg.Id) ∧
    GotAnswer exampleMsg = some true ∧
    iterativeResolver.resolve (answeringUpstream 0) 1 (newIter (resolverAt 0) lowerQuery)
        Trace.start exampleMsg
      = Outcome.ok (Except.error Error.ErrInvalidResponse,
          { newIter (resolverAt 0) lowerQuery with iters := 1 },
          { reads := 1, queries := [], cached := [] }) :=
  ⟨⟨by decide, by decide, by decide⟩, by decide,
   iterativeResolver.resolve_id_mismatch (answeringUpstream 0) 0
     (newIter (resolverAt 0) lowerQuery) Trace.start exampleMsg
     (by decide) (by decide) (by decide)⟩

/-- C18: a resolver created at time 0 receives its query at time 60 s; the direct
answer is a referral, and the first iterative step, taken at that same time, is
rejected with `ErrServerFailed` by the time-out check, before any query.  The
same query on a resolver created at time 60 s is resolved. -/
theorem recursiveResolver.resolve_stale_deadline_example :
    (resolverAt 0).ts = 0 ∧
    (resolverAt 0).isTimeout (60 * Second) = true ∧
    recursiveResolver.resolve (answeringUpstream (60 * Second)) 9 (resolverAt 0)
        Trace.start lowerQuery
      = Outcome.ok (Except.error Error.ErrServerFailed,
          { reads := 1, queries := [], cached := [] }) ∧
    recursiveResolver.resolve (answeringUpstream (60 * Second)) 9 (resolverAt (60 * Second))
        Trace.start lowerQuery
      = Outcome.ok (Except.ok lowerAnswer,
          { reads := 2, queries := [(referralMsg, ["8.8.8.8"])], cached := [lowerAnswer] }) := by
  refine ⟨by decide, by decide, ?_, ?_⟩
  · rfl
  · rfl

/-- C13: the direct answer to the query for `a.example.` is a chain of three CNAME
records ending at `d.example.`, and the upstream would answer any further query
with the address of `d.example.`; the resolution makes no further query, calls
`resolve` seven times on the same response, and returns `ErrCyclicCNAME`. -/
theorem recursiveResolver.resolve_cname_chain_example :
    GotAnswer chainMsg = some false ∧
    FindCname 4 chainMsg = Outcome.ok ("d.example.", true) ∧
    recursiveResolver.resolve (chainUpstream 0) 12 (resolverAt 0) Trace.start chainQuery
      = Outcome.ok (Except.error Error.ErrCyclicCNAME,
          { reads := 7, queries := [], cached := [] }) := by
  refine ⟨by decide, by decide, ?_⟩
  rfl

/-- A call of `resolve` that finds the iteration limit exceeded returns
`ErrServerFailed` at once. -/
theorem iterativeResolver.resolve_exceeded (up : Upstream) (fuel : Nat)
    (ir : iterativeResolver) (tr : Trace) (msg : Msg) (h : ir.iters + 1 > iterLimit) :
    iterativeResolver.resolve up (fuel + 1) ir tr msg
      = Outcome.ok (Except.error Error.ErrServerFailed, { ir with iters := ir.iters + 1 }, tr) := by
  simp [iterativeResolver.resolve, iterativeResolver.isExceededTimes, h]

/-- A call of `resolve` that reaches `FindCname` returns no sooner than it. -/
theorem iterativeResolver.resolve_stuck (up : Upstream) (fuel : Nat)
    (ir : iterativeResolver) (tr : Trace) (msg : Msg)
    (hiter : ir.iters + 1 ≤ iterLimit)
    (htime : ir.resolver.isTimeout (up.now tr.reads) = false)
    (hid : ir.raw.Id = msg.Id) (hga : GotAnswer msg = some false) (hns : ir.isNS = false)
    (hcn : FindCname fuel msg = Outcome.outOfFuel) :
    iterativeResolver.resolve up (fuel + 1) ir tr msg = Outcome.outOfFuel := by
  have hnot : ¬ (ir.iters + 1 > iterLimit) := by omega
  simp [iterativeResolver.resolve, iterativeResolver.isExceededTimes, hnot, htime, hid, hga,
    hns, hcn]

/-- C12: the direct answer to the query is a response whose two CNAME records refer
to each other; it is not final and carries the id of the query, so the iterative
resolution is entered, and it never returns: whatever the fuel, the model has
not returned when the fuel is used up. -/
theorem recursiveResolver.resolve_cyclic_never_returns (fuel : Nat) :
    GotAnswer cyclicMsg = some false ∧ cyclicMsg.Id = cyclicQuery.Id ∧
    iterativeResolver.resolve cyclicUpstream fuel (newIter (resolverAt 0) cyclicQuery)
        Trace.start cyclicMsg = Outcome.outOfFuel ∧
    recursiveResolver.resolve cyclicUpstream fuel (resolverAt 0) Trace.start cyclicQuery
      = Outcome.outOfFuel := by
  have hga : GotAnswer cyclicMsg = some false := by decide
  have hiter : iterativeResolver.resolve cyclicUpstream fuel (newIter (resolverAt 0) cyclicQuery)
      Trace.start cyclicMsg = Outcome.outOfFuel := by
    cases fuel with
    | zero => rfl
    | succ f =>
        exact iterativeResolver.resolve_stuck cyclicUpstream f _ _ _ (by decide) (by decide) rfl
          hga rfl (FindCname_cyclicMsg f)
  refine ⟨hga, rfl, hiter, ?_⟩
  have hdirect : cyclicUpstream.direct cyclicQuery = Except.ok cyclicMsg := rfl
  simp only [recursiveResolver.resolve, hdirect, hga, hiter]

/-- A message without CNAME record makes `FindCname` return `("", false)`. -/
theorem FindCname_no_cname (fuel : Nat) (msg : Msg)
    (h : FindCname.table (msg.Answer ++ msg.Ns) [] = []) :
    FindCname fuel msg = Outcome.ok ("", false) := by
  simp [FindCname, h]

/-- One call of `resolve` on a response that is not final and holds no CNAME, within
the iteration limit and not timed out: the query goes to the servers of the
state, or to `upDNS` when there are none; here it is answered. -/
theorem iterativeResolver.resolve_query_ok (up : Upstream) (fuel : Nat)
    (ir : iterativeResolver) (tr : Trace) (msg m : Msg)
    (hiter : ir.iters + 1 ≤ iterLimit)
    (htime : ir.resolver.isTimeout (up.now tr.reads) = false)
    (hid : ir.raw.Id = msg.Id) (hga : GotAnswer msg = some false) (hns : ir.isNS = false)
    (hcn : FindCname fuel msg = Outcome.ok ("", false))
    (hq : up.query tr.queries.length msg (if ir.servers.length = 0 then upDNS else ir.servers)
      = some m) :
    iterativeResolver.resolve up (fuel + 1) ir tr msg
      = iterativeResolver.resolve up fuel
          { ir with iters := ir.iters + 1,
                    servers := if ir.servers.length = 0 then upDNS else ir.servers,
                    msg := msg, isStandard := false, isNS := false }
          { tr with reads := tr.reads + 1,
                    queries := tr.queries
                      ++ [(msg, if ir.servers.length = 0 then upDNS else ir.servers)] }
          m := by
  have hnot : ¬ (ir.iters + 1 > iterLimit) := by omega
  by_cases hs : ir.servers.length = 0
  · simp only [hs, if_true, upDNS] at hq
    simp [iterativeResolver.resolve, iterativeResolver.isExceededTimes, hnot, htime, hid, hga,
      hns, hcn, hs, hq, upDNS]
  · simp only [hs, if_false] at hq
    simp [iterativeResolver.resolve, iterativeResolver.isExceededTimes, hnot, htime, hid, hga,
      hns, hcn, hs, hq]

/-- As `resolve_query_ok`, when the query gets no response and the state is not yet
in fallback: the same message is resolved again with `upDNS`, in fallback. -/
theorem iterativeResolver.resolve_query_retry (up : Upstream) (fuel : Nat)
    (ir : iterativeResolver) (tr : Trace) (msg : Msg)
    (hiter : ir.iters + 1 ≤ iterLimit)
    (htime : ir.resolver.isTimeout (up.now tr.reads) = false)
    (hid : ir.raw.Id = msg.Id) (hga : GotAnswer msg = some false) (hns : ir.isNS = false)
    (hcn : FindCname fuel msg = Outcome.ok ("", false))
    (hq : up.query tr.queries.length msg (if ir.servers.length = 0 then upDNS else ir.servers)
      = none)
    (hstd : ir.isStandard = false) :
    iterativeResolver.resolve up (fuel + 1) ir tr msg
      = iterativeResolver.resolve up fuel
          { ir with iters := ir.iters + 1, servers := upDNS, isStandard := true }
          { tr with reads := tr.reads + 1,
                    queries := tr.queries
                      ++ [(msg, if ir.servers.length = 0 then upDNS else ir.servers)] }
          msg := by
  have hnot : ¬ (ir.iters + 1 > iterLimit) := by omega
  by_cases hs : ir.servers.length = 0
  · simp only [hs, if_true, upDNS] at hq
    simp [iterativeResolver.resolve, iterativeResolver.isExceededTimes, hnot, htime, hid, hga,
      hns, hcn, hs, hq, hstd, upDNS]
  · simp only [hs, if_false] at hq
    simp [iterativeResolver.resolve, iterativeResolver.isExceededTimes, hnot, htime, hid, hga,
      hns, hcn, hs, hq, hstd]

/-- As `resolve_query_ok`, when the query gets no response and the state is in
fallback already: `ErrServerFailed`. -/
theorem iterativeResolver.resolve_query_failed (up : Upstream) (fuel : Nat)
    (ir : iterativeResolver) (tr : Trace) (msg : Msg)
    (hiter : ir.iters + 1 ≤ iterLimit)
    (htime : ir.resolver.isTimeout (up.now tr.reads) = false)
    (hid : ir.raw.Id = msg.Id) (hga : GotAnswer msg = some false) (hns : ir.isNS = false)
    (hcn : FindCname fuel msg = Outcome.ok ("", false))
    (hq : up.query tr.queries.length msg (if ir.servers.length = 0 then upDNS else ir.servers)
      = none)
    (hstd : ir.isStandard = true) :
    iterativeResolver.resolve up (fuel + 1) ir tr msg
      = Outcome.ok (Except.error Error.ErrServerFailed,
          { ir with iters := ir.iters + 1,
                    servers := if ir.servers.length = 0 then upDNS else ir.servers },
          { tr with reads := tr.reads + 1,
                    queries := tr.queries
                      ++ [(msg, if ir.servers.length = 0 then upDNS else ir.servers)] }) := by
  have hnot : ¬ (ir.iters + 1 > iterLimit) := by omega
  by_cases hs : ir.servers.length = 0
  · simp only [hs, if_true, upDNS] at hq
    simp [iterativeResolver.resolve, iterativeResolver.isExceededTimes, hnot, htime, hid, hga,
      hns, hcn, hs, hq, hstd, upDNS]
  · simp only [hs, if_false] at hq
    simp [iterativeResolver.resolve, iterativeResolver.isExceededTimes, hnot, htime, hid, hga,
      hns, hcn, hs, hq, hstd]

/-- C19, refuted: the resolver is configured with the upstream `192.0.2.53`, and the
response is a referral whose NS records name `a.gtld-servers.net.` and
`b.gtld-servers.net.` (what `FindNS` extracts); the next call of
`resolveWithServers` is made with the list `["8.8.8.8"]`, not with the referral
servers. -/
theorem iterativeResolver.resolve_referral_counterexample :
    FindNS referralMsg = some (some ["a.gtld-servers.net.", "b.gtld-servers.net."]) ∧
    GotAnswer referralMsg = some false ∧
    FindCname.table (referralMsg.Answer ++ referralMsg.Ns) [] = [] ∧
    configuredResolver.servers = ["192.0.2.53"] ∧
    ∃ ir2, iterativeResolver.resolve (answeringUpstream 0) 9
        (newIter configuredResolver lowerQuery) Trace.start referralMsg
      = Outcome.ok (Except.ok lowerAnswer, ir2,
          { reads := 2, queries := [(referralMsg, ["8.8.8.8"])], cached := [lowerAnswer] }) := by
  refine ⟨by decide, by decide, by decide, by decide, ?_⟩
  exact ⟨_, rfl⟩

/-- C19, amended: in a call of `resolve` within the iteration limit and not timed out,
on a response that carries the id of the query, is not final and has no CNAME,
the next call of `resolveWithServers` is made with the server list of the state,
or with the built-in `upDNS` when that list is empty: the list is the same
whatever the NS records of the response are.  If the call returns a message, that
message is resolved next, out of fallback; if it returns an error and the state
is not in fallback, the same message is resolved again with the list `upDNS`, in
fallback; if the state is in fallback already, the result is `ErrServerFailed`.
The call of `resolveWithServers` with that list, on whatever network, returns
(given fuel for the four rounds of `resolving`), and it makes its UDP and TCP
exchanges with servers of that list, and the TCP exchanges that `resolving`
makes after a truncated reply with servers of `r.servers`. -/
theorem iterativeResolver.resolve_next_query (up : Upstream) (fuel : Nat)
    (ir : iterativeResolver) (tr : Trace) (msg : Msg)
    (hiter : ir.iters + 1 ≤ iterLimit)
    (htime : ir.resolver.isTimeout (up.now tr.reads) = false)
    (hid : ir.raw.Id = msg.Id) (hga : GotAnswer msg = some false) (hns : ir.isNS = false)
    (hcn : FindCname.table (msg.Answer ++ msg.Ns) [] = []) :
    (∀ m, up.query tr.queries.length msg (if ir.servers.length = 0 then upDNS else ir.servers)
        = some m →
      iterativeResolver.resolve up (fuel + 1) ir tr msg
        = iterativeResolver.resolve up fuel
            { ir with iters := ir.iters + 1,
                      servers := if ir.servers.length = 0 then upDNS else ir.servers,
                      msg := msg, isStandard := false, isNS := false }
            { tr with reads := tr.reads + 1,
                      queries := tr.queries
                        ++ [(msg, if ir.servers.length = 0 then upDNS else ir.servers)] }
            m) ∧
    (up.query tr.queries.length msg (if ir.servers.length = 0 then upDNS else ir.servers)
        = none → ir.isStandard = false →
      iterativeResolver.resolve up (fuel + 1) ir tr msg
        = iterativeResolver.resolve up fuel
            { ir with iters := ir.iters + 1, servers := upDNS, isStandard := true }
            { tr with reads := tr.reads + 1,
                      queries := tr.queries
                        ++ [(msg, if ir.servers.length = 0 then upDNS else ir.servers)] }
            msg) ∧
    (up.query tr.queries.length msg (if ir.servers.length = 0 then upDNS else ir.servers)
        = none → ir.isStandard = true →
      iterativeResolver.resolve up (fuel + 1) ir tr msg
        = Outcome.ok (Except.error Error.ErrServerFailed,
            { ir with iters := ir.iters + 1,
                      servers := if ir.servers.length = 0 then upDNS else ir.servers },
            { tr with reads := tr.reads + 1,
                      queries := tr.queries
                        ++ [(msg, if ir.servers.length = 0 then upDNS else ir.servers)] })) ∧
    (∀ (net : Net) (f : Nat), 4 ≤ f →
      ∃ logs res,
        Dnsproxy.resolver.resolveWithServers net ir.resolver f msg
            (if ir.servers.length = 0 then upDNS else ir.servers) = some (logs, res) ∧
        ∀ nl ∈ logs,
          (∀ p ∈ nl.handled, p.1 ∈ (if ir.servers.length = 0 then upDNS else ir.servers)) ∧
          (∀ s ∈ nl.tcp, s ∈ ir.resolver.servers)) := by
  have hcn2 := FindCname_no_cname fuel msg hcn
  refine ⟨fun m hq => iterativeResolver.resolve_query_ok up fuel ir tr msg m hiter htime hid hga
      hns hcn2 hq,
    fun hq hstd => iterativeResolver.resolve_query_retry up fuel ir tr msg hiter htime hid hga
      hns hcn2 hq hstd,
    fun hq hstd => iterativeResolver.resolve_query_failed up fuel ir tr msg hiter htime hid hga
      hns hcn2 hq hstd, ?_⟩
  intro net f hf
  have hret := resolver.resolveWithServers_returns net ir.resolver f msg
    (if ir.servers.length = 0 then upDNS else ir.servers) hf
  cases hres : Dnsproxy.resolver.resolveWithServers net ir.resolver f msg
      (if ir.servers.length = 0 then upDNS else ir.servers) with
  | none => rw [hres] at hret; exact absurd hret (by decide)
  | some out =>
      exact ⟨out.1, out.2, rfl,
        resolver.resolveWithServers_servers net ir.resolver f msg _ out.1 out.2 hres⟩

/-- C19, amended, on the referral `referralMsg` and an upstream that gives no
response: the first call of `resolveWithServers` is made with `["8.8.8.8"]`, the
second too, and the result is `ErrServerFailed` after these two calls. -/
theorem iterativeResolver.resolve_next_query_witness :
    ((newIter configuredResolver lowerQuery).iters + 1 ≤ iterLimit ∧
     (newIter configuredResolver lowerQuery).resolver.isTimeout
        ((silentUpstream 0).now Trace.start.reads) = false ∧
     (newIter configuredResolver lowerQuery).raw.Id = referralMsg.Id ∧
     GotAnswer referralMsg = some false ∧
     (newIter configuredResolver lowerQuery).isNS = false ∧
     FindCname.table (referralMsg.Answer ++ referralMsg.Ns) [] = []) ∧
    ∃ ir2, iterativeResolver.resolve (silentUpstream 0) 9
        (newIter configuredResolver lowerQuery) Trace.start referralMsg
      = Outcome.ok (Except.error Error.ErrServerFailed, ir2,
          { reads := 2, queries := [(referralMsg, ["8.8.8.8"]), (referralMsg, ["8.8.8.8"])],
            cached := [] }) :=
  ⟨⟨by decide, by decide, by decide, by decide, by decide, by decide⟩,
   ⟨_, ((iterativeResolver.resolve_next_query (silentUpstream 0) 8
      (newIter configuredResolver lowerQuery) Trace.start referralMsg
      (by decide) (by decide) (by decide) (by decide) (by decide) (by decide)).2.1 rfl rfl).trans
      rfl⟩⟩

/-- When every query is answered by a response that carries the id of the original
query, is not final and has no CNAME, and no time-out occurs, a call of `resolve`
entered with `7 - d` earlier calls returns `ErrServerFailed` after exactly `d`
queries, and hands nothing to the cache. -/
theorem iterativeResolver.resolve_rounds (up : Upstream) (r : Dnsproxy.resolver) (id : Nat)
    (htime : ∀ k, r.isTimeout (up.now k) = false)
    (hup : ∀ k m s, ∃ m2, up.query k m s = some m2 ∧ m2.Id = id ∧ GotAnswer m2 = some false ∧
      FindCname.table (m2.Answer ++ m2.Ns) [] = [])
    (d : Nat) :
    ∀ (fuel : Nat) (ir : iterativeResolver) (tr : Trace) (msg : Msg),
      d + 1 ≤ fuel → ir.iters + d = 7 → ir.isNS = false → ir.raw.Id = id → ir.resolver = r →
      msg.Id = id → GotAnswer msg = some false →
      FindCname.table (msg.Answer ++ msg.Ns) [] = [] →
      ∃ ir2 tr2, iterativeResolver.resolve up fuel ir tr msg
          = Outcome.ok (Except.error Error.ErrServerFailed, ir2, tr2) ∧
        tr2.queries.length = tr.queries.length + d ∧ tr2.cached = tr.cached := by
  induction d with
  | zero =>
      intro fuel ir tr msg hf hi _ _ _ _ _ _
      obtain ⟨f, rfl⟩ : ∃ f, fuel = f + 1 := ⟨fuel - 1, by omega⟩
      refine ⟨_, _, iterativeResolver.resolve_exceeded up f ir tr msg
        (by simp only [iterLimit]; push_cast at hi; omega), rfl, rfl⟩
  | succ d ih =>
      intro fuel ir tr msg hf hi hns hraw hr hid hga hcn
      obtain ⟨f, rfl⟩ : ∃ f, fuel = f + 1 := ⟨fuel - 1, by omega⟩
      obtain ⟨m2, hq, hid2, hga2, hcn2⟩ := hup tr.queries.length msg
        (if ir.servers.length = 0 then upDNS else ir.servers)
      rw [iterativeResolver.resolve_query_ok up f ir tr msg m2
        (by simp only [iterLimit]; push_cast at hi; omega) (by rw [hr]; exact htime _)
        (by rw [hraw, hid]) hga hns (FindCname_no_cname f msg hcn) hq]
      obtain ⟨ir2, tr2, hres, hlen, hcache⟩ := ih f
        { ir with iters := ir.iters + 1,
                  servers := if ir.servers.length = 0 then upDNS else ir.servers,
                  msg := msg, isStandard := false, isNS := false }
        { tr with reads := tr.reads + 1,
                  queries := tr.queries
                    ++ [(msg, if ir.servers.length = 0 then upDNS else ir.servers)] }
        m2 (by omega)
        (by show ir.iters + 1 + (d : Int) = 7; push_cast at hi; omega) rfl hraw hr hid2 hga2 hcn2
      refine ⟨ir2, tr2, hres, ?_, hcache⟩
      rw [hlen]
      simp only [List.length_append, List.length_singleton]
      omega

/-- From the state of a new iterative resolution, under the conditions of
`resolve_rounds`, `resolve` (given fuel for 8 calls) returns `ErrServerFailed`
after exactly 7 queries. -/
theorem iterativeResolver.resolve_seven_rounds (up : Upstream) (r : Dnsproxy.resolver)
    (query msg : Msg) (fuel : Nat) (hfuel : 8 ≤ fuel)
    (htime : ∀ k, r.isTimeout (up.now k) = false)
    (hup : ∀ k m s, ∃ m2, up.query k m s = some m2 ∧ m2.Id = query.Id ∧
      GotAnswer m2 = some false ∧ FindCname.table (m2.Answer ++ m2.Ns) [] = [])
    (hid : msg.Id = query.Id) (hga : GotAnswer msg = some false)
    (hcn : FindCname.table (msg.Answer ++ msg.Ns) [] = []) :
    ∃ ir2 tr2, iterativeResolver.resolve up fuel (newIter r query) Trace.start msg
        = Outcome.ok (Except.error Error.ErrServerFailed, ir2, tr2) ∧
      tr2.queries.length = 7 ∧ tr2.cached = [] := by
  obtain ⟨ir2, tr2, hres, hlen, hcache⟩ := iterativeResolver.resolve_rounds up r query.Id htime
    hup 7 fuel (newIter r query) Trace.start msg (by omega) rfl rfl rfl rfl hid hga hcn
  exact ⟨ir2, tr2, hres, by simpa [Trace.start] using hlen, by simpa [Trace.start] using hcache⟩

/-- The first loop of `FindCname` never empties the map. -/
theorem FindCname.table_ne_nil (l : List (Option RR)) (x : List (String × String))
    (hx : x ≠ []) : FindCname.table l x ≠ [] := by
  induction l generalizing x with
  | nil => simpa [FindCname.table] using hx
  | cons a rest ih =>
      cases a with
      | none => simpa [FindCname.table] using ih x hx
      | some an =>
          by_cases hty : an.Hdr.Rrtype = TypeCNAME
          · cases hb : an.body with
            | CNAME target =>
                simp only [FindCname.table, hty, ne_eq, not_true_eq_false, if_false, hb]
                exact ih _ (by simp [mapSet])
            | A a => simpa [FindCname.table, hty, hb] using ih x hx
            | NS ns => simpa [FindCname.table, hty, hb] using ih x hx
            | other => simpa [FindCname.table, hty, hb] using ih x hx
          · simpa [FindCname.table, hty] using ih x hx

/-- The map of `FindCname` is empty exactly when no record of the list is a CNAME
record (header type CNAME and Go type `*dns.CNAME`). -/
theorem FindCname.table_eq_nil_iff (l : List (Option RR)) :
    FindCname.table l [] = [] ↔
      ∀ rr, some rr ∈ l → ¬ (rr.Hdr.Rrtype = TypeCNAME ∧ ∃ t, rr.body = RData.CNAME t) := by
  induction l with
  | nil => simp [FindCname.table]
  | cons a rest ih =>
      cases a with
      | none =>
          simp only [FindCname.table, ih, List.mem_cons]
          constructor
          · intro h rr hm
            rcases hm with e | hm
            · cases e
            · exact h rr hm
          · intro h rr hm
            exact h rr (Or.inr hm)
      | some an =>
          by_cases hty : an.Hdr.Rrtype = TypeCNAME
          · cases hb : an.body with
            | CNAME target =>
                simp only [FindCname.table, hty, ne_eq, not_true_eq_false, if_false, hb]
                constructor
                · intro h
                  exact absurd h (FindCname.table_ne_nil _ _ (by simp [mapSet]))
                · intro h
                  exact absurd ⟨hty, target, hb⟩ (h an (by simp))
            | A a =>
                simp only [FindCname.table, hty, ne_eq, not_true_eq_false, if_false, hb, ih,
                  List.mem_cons]
                constructor
                · intro h rr hm
                  rcases hm with e | hm
                  · cases e
                    rintro ⟨_, t, ht⟩
                    rw [hb] at ht
                    cases ht
                  · exact h rr hm
                · intro h rr hm
                  exact h rr (Or.inr hm)
            | NS ns =>
                simp only [FindCname.table, hty, ne_eq, not_true_eq_false, if_false, hb, ih,
                  List.mem_cons]
                constructor
                · intro h rr hm
                  rcases hm with e | hm
                  · cases e
                    rintro ⟨_, t, ht⟩
                    rw [hb] at ht
                    cases ht
                  · exact h rr hm
                · intro h rr hm
                  exact h rr (Or.inr hm)
            | other =>
                simp only [FindCname.table, hty, ne_eq, not_true_eq_false, if_false, hb, ih,
                  List.mem_cons]
                constructor
                · intro h rr hm
                  rcases hm with e | hm
                  · cases e
                    rintro ⟨_, t, ht⟩
                    rw [hb] at ht
                    cases ht
                  · exact h rr hm
                · intro h rr hm
                  exact h rr (Or.inr hm)
          · simp only [FindCname.table, ne_eq, hty, not_false_eq_true, if_true, ih, List.mem_cons]
            constructor
            · intro h rr hm
              rcases hm with e | hm
              · cases e
                rintro ⟨h1, _⟩
                exact hty h1
              · exact h rr hm
            · intro h rr hm
              exact h rr (Or.inr hm)

/-- On a message with a question, `FindCname` returns `("", false)` exactly when the
map is empty; otherwise, when it returns, it returns `(n, true)` with `n` reached
from the name of the first question through the map and not a key of it. -/
theorem FindCname_result (fuel : Nat) (msg : Msg) (q : Question) (qs : List Question)
    (hq : msg.Question = q :: qs) :
    (FindCname fuel msg = Outcome.ok ("", false) ↔
      FindCname.table (msg.Answer ++ msg.Ns) [] = []) ∧
    (∀ n b, FindCname.table (msg.Answer ++ msg.Ns) [] ≠ [] →
      FindCname fuel msg = Outcome.ok (n, b) →
      b = true ∧
      Relation.ReflTransGen
        (fun a c => (FindCname.table (msg.Answer ++ msg.Ns) []).lookup a = some c) q.Name n ∧
      (FindCname.table (msg.Answer ++ msg.Ns) []).lookup n = none) := by
  constructor
  · constructor
    · intro h
      by_contra hne
      have hlen : ¬ (FindCname.table (msg.Answer ++ msg.Ns) []).length = 0 := by
        simpa [List.length_eq_zero] using hne
      simp only [FindCname, hlen, if_false, hq] at h
      cases hf : FindCname.follow fuel (FindCname.table (msg.Answer ++ msg.Ns) []) q.Name with
      | none => simp [hf] at h
      | some n => simp [hf] at h
    · intro h
      exact FindCname_no_cname fuel msg h
  · intro n b hne h
    have hlen : ¬ (FindCname.table (msg.Answer ++ msg.Ns) []).length = 0 := by
      simpa [List.length_eq_zero] using hne
    simp only [FindCname, hlen, if_false, hq] at h
    cases hf : FindCname.follow fuel (FindCname.table (msg.Answer ++ msg.Ns) []) q.Name with
    | none => simp [hf] at h
    | some n2 =>
        simp only [hf, Outcome.ok.injEq, Prod.mk.injEq] at h
        obtain ⟨h1, h2⟩ := h
        subst h1
        exact ⟨h2.symm, FindCname.follow_some _ _ _ _ hf⟩

/-! ## Theorems on `isNS` and on `msg.Question[0]` -/

/-- The method `resolve` is `resolveWith` at the test of the source. -/
theorem iterativeResolver.resolve_eq_resolveWith (up : Upstream) (fuel : Nat) :
    iterativeResolver.resolve up fuel
      = iterativeResolver.resolveWith iterativeResolver.glue up fuel := by
  induction fuel with
  | zero => rfl
  | succ f ih =>
      funext ir tr msg
      simp only [iterativeResolver.resolve, iterativeResolver.resolveWith,
        iterativeResolver.glue, ih]

/-- Two functions for `resolve` that agree on the states with `isNS = false` give the
same result of `cname` on such a state. -/
theorem iterativeResolver.cname_congr (r1 r2 : iterativeResolver → Trace → Msg → Resolved)
    (h : ∀ ir tr m, ir.isNS = false → r1 ir tr m = r2 ir tr m)
    (ir : iterativeResolver) (tr : Trace) (msg : Msg) (names servers : List String)
    (hns : ir.isNS = false) :
    iterativeResolver.cname r1 ir tr msg names servers
      = iterativeResolver.cname r2 ir tr msg names servers := by
  by_cases hl : ir.cnames + 1 = cnameLimit
  · simp [iterativeResolver.cname, iterativeResolver.isExceededCnames, hl]
  · by_cases hs : servers.length = 0
    · simp only [iterativeResolver.cname, iterativeResolver.isExceededCnames, hs, if_true, hl,
        decide_False]
      rw [h]
      exact hns
    · simp only [iterativeResolver.cname, iterativeResolver.isExceededCnames, hs, if_false, hl,
        decide_False]
      rw [h]
      exact hns

/-- Two tests that agree on the states with `isNS = false` give the same resolution
from such a state: the test is only ever made on states with `isNS = false`. -/
theorem iterativeResolver.resolveWith_congr (probe1 probe2 : iterativeResolver → Msg → Option Msg)
    (up : Upstream) (h : ∀ ir m, ir.isNS = false → probe1 ir m = probe2 ir m) (fuel : Nat) :
    ∀ (ir : iterativeResolver) (tr : Trace) (msg : Msg), ir.isNS = false →
      iterativeResolver.resolveWith probe1 up fuel ir tr msg
        = iterativeResolver.resolveWith probe2 up fuel ir tr msg := by
  induction fuel with
  | zero => intro ir tr msg _; rfl
  | succ f ih =>
      intro ir tr msg hns
      have hp := h { ir with iters := ir.iters + 1 } msg hns
      have hc : ∀ (ir2 : iterativeResolver) (tr2 : Trace) (m : Msg) (names servers : List String),
          ir2.isNS = false →
          iterativeResolver.cname (iterativeResolver.resolveWith probe1 up f) ir2 tr2 m names
              servers
            = iterativeResolver.cname (iterativeResolver.resolveWith probe2 up f) ir2 tr2 m names
              servers :=
        fun ir2 tr2 m names servers h2 =>
          iterativeResolver.cname_congr _ _ ih ir2 tr2 m names servers h2
      by_cases h1 : ir.iters + 1 > iterLimit
      · simp only [iterativeResolver.resolveWith, iterativeResolver.isExceededTimes, h1,
          decide_True]
      · simp only [iterativeResolver.resolveWith, iterativeResolver.isExceededTimes, h1,
          decide_False, hp]
        repeat' split
        all_goals first
          | rfl
          | (apply ih; first | exact hns | rfl)
          | (apply hc; exact hns)

/-- When the function for `resolve` returns states with `isNS = false` from such states,
so does `cname`. -/
theorem iterativeResolver.cname_isNS (r : iterativeResolver → Trace → Msg → Resolved)
    (hr : ∀ ir tr m res ir2 tr2, ir.isNS = false → r ir tr m = Outcome.ok (res, ir2, tr2) →
      ir2.isNS = false)
    (ir : iterativeResolver) (tr : Trace) (msg : Msg) (names servers : List String)
    (res : Except Error Msg) (ir2 : iterativeResolver) (tr2 : Trace) (hns : ir.isNS = false)
    (hres : iterativeResolver.cname r ir tr msg names servers = Outcome.ok (res, ir2, tr2)) :
    ir2.isNS = false := by
  by_cases hl : ir.cnames + 1 = cnameLimit
  · simp only [iterativeResolver.cname, iterativeResolver.isExceededCnames, hl, decide_True,
      Outcome.ok.injEq, Prod.mk.injEq] at hres
    obtain ⟨_, h2, _⟩ := hres
    rw [← h2]
    exact hns
  · simp only [iterativeResolver.cname, iterativeResolver.isExceededCnames, hl, decide_False]
      at hres
    repeat' split at hres
    all_goals cases hres
    all_goals
      rename_i heq
      exact hr _ _ _ _ _ _ (by split <;> exact hns) heq

/-- A call of `resolve` on a state with `isNS = false` returns a state with
`isNS = false`. -/
theorem iterativeResolver.resolve_isNS (up : Upstream) (fuel : Nat) :
    ∀ (ir : iterativeResolver) (tr : Trace) (msg : Msg) (res : Except Error Msg)
      (ir2 : iterativeResolver) (tr2 : Trace), ir.isNS = false →
      iterativeResolver.resolve up fuel ir tr msg = Outcome.ok (res, ir2, tr2) →
      ir2.isNS = false := by
  induction fuel with
  | zero =>
      intro ir tr msg res ir2 tr2 _ hres
      simp [iterativeResolver.resolve] at hres
  | succ f ih =>
      intro ir tr msg res ir2 tr2 hns hres
      by_cases h1 : ir.iters + 1 > iterLimit
      · simp only [iterativeResolver.resolve, iterativeResolver.isExceededTimes, h1, decide_True,
          Outcome.ok.injEq, Prod.mk.injEq] at hres
        obtain ⟨_, h2, _⟩ := hres
        rw [← h2]
        exact hns
      · simp only [iterativeResolver.resolve, iterativeResolver.isExceededTimes, h1,
          decide_False, hns] at hres
        repeat' split at hres
        all_goals first
          | (cases hres; done)
          | (cases hres; first | exact hns | rfl)
          | (exact ih _ _ _ _ _ _ (by first | exact hns | rfl) hres)
          | (exact iterativeResolver.cname_isNS _ ih _ _ _ _ _ _ _ _
              (by first | exact hns | rfl) hres)

/-- C21: the state that `recursiveResolver.resolve` creates has `isNS = false`, and for
every state with `isNS = false`: the test on `isNS` and `FindNSExtras` is made on
states with `isNS = false` only, so that any test agreeing with it on those
states gives the same resolution, in particular the test that never returns a
message (the branch deleted); and the state returned has `isNS = false` again.
So no state reached has `isNS = true` and no returned response comes from
`FindNSExtras`. -/
theorem iterativeResolver.isNS_false (up : Upstream) (fuel : Nat) (r : Dnsproxy.resolver)
    (query : Msg) (ir : iterativeResolver) (tr : Trace) (msg : Msg) (hns : ir.isNS = false) :
    (newIter r query).isNS = false ∧
    (∀ probe : iterativeResolver → Msg → Option Msg,
      (∀ ir1 m, ir1.isNS = false → probe ir1 m = iterativeResolver.glue ir1 m) →
      iterativeResolver.resolveWith probe up fuel ir tr msg
        = iterativeResolver.resolve up fuel ir tr msg) ∧
    iterativeResolver.resolve up fuel ir tr msg
      = iterativeResolver.resolveWith (fun _ _ => none) up fuel ir tr msg ∧
    (∀ res ir2 tr2, iterativeResolver.resolve up fuel ir tr msg = Outcome.ok (res, ir2, tr2) →
      ir2.isNS = false) := by
  refine ⟨rfl, ?_, ?_, ?_⟩
  · intro probe hprobe
    rw [iterativeResolver.resolve_eq_resolveWith]
    exact iterativeResolver.resolveWith_congr probe iterativeResolver.glue up hprobe fuel ir tr
      msg hns
  · rw [iterativeResolver.resolve_eq_resolveWith]
    exact iterativeResolver.resolveWith_congr iterativeResolver.glue (fun _ _ => none) up
      (fun ir1 m h1 => by simp [iterativeResolver.glue, h1]) fuel ir tr msg hns
  · intro res ir2 tr2 hres
    exact iterativeResolver.resolve_isNS up fuel ir tr msg res ir2 tr2 hns hres

/-- C21, on an authoritative referral with an address record in its additional
section, from the state that `recursiveResolver.resolve` creates: `FindNSExtras`
would turn it into an answer, but the resolution with the branch deleted is the
resolution, which queries `8.8.8.8` twice and returns `ErrServerFailed`. -/
theorem iterativeResolver.isNS_false_witness :
    (newIter (resolverAt 0) lowerQuery).isNS = false ∧
    FindNSExtras glueMsg = some { glueMsg with Answer := glueMsg.Extra } ∧
    iterativeResolver.resolve (silentUpstream 0) 9 (newIter (resolverAt 0) lowerQuery)
        Trace.start glueMsg
      = iterativeResolver.resolveWith (fun _ _ => none) (silentUpstream 0) 9
          (newIter (resolverAt 0) lowerQuery) Trace.start glueMsg ∧
    ∃ ir2, iterativeResolver.resolve (silentUpstream 0) 9 (newIter (resolverAt 0) lowerQuery)
        Trace.start glueMsg
      = Outcome.ok (Except.error Error.ErrServerFailed, ir2,
          { reads := 2, queries := [(glueMsg, ["8.8.8.8"]), (glueMsg, ["8.8.8.8"])],
            cached := [] }) :=
  ⟨rfl, by decide,
   (iterativeResolver.isNS_false (silentUpstream 0) 9 (resolverAt 0) lowerQuery
      (newIter (resolverAt 0) lowerQuery) Trace.start glueMsg rfl).2.2.1,
   ⟨_, rfl⟩⟩

/-- With a question in the message, `FindCname` does not panic. -/
theorem FindCname_no_panic (fuel : Nat) (msg : Msg) (q : Question) (qs : List Question)
    (hq : msg.Question = q :: qs) : FindCname fuel msg ≠ Outcome.panic := by
  unfold FindCname
  simp only [hq]
  split
  · simp
  · split <;> simp

/-- With a question in the message, `GotAnswer` does not panic. -/
theorem GotAnswer_no_panic (msg : Msg) (q : Question) (qs : List Question)
    (hq : msg.Question = q :: qs) : GotAnswer msg ≠ none := by
  obtain ⟨b, hb, _⟩ := GotAnswer.loop_total q qs msg.Answer
  unfold GotAnswer
  rw [hq, hb]
  cases b
  · simp only
    split
    · split <;> simp
    · simp
  · simp

/-- C22: an upstream response with an address record in its answer section and an
empty question section makes `GotAnswer` read `msg.Question[0]` out of range:
`recursiveResolver.resolve` panics, and so does the round of `worker.run` for a
client query that does have a question.  A response with an empty question
section, no answer and a CNAME record in its authority section passes
`GotAnswer` and makes `FindCname` panic in the same way. -/
theorem recursiveResolver.resolve_question_panic_example :
    lowerQuery.Question.length = 1 ∧
    noQuestionAnswer.Question = [] ∧
    GotAnswer noQuestionAnswer = none ∧
    recursiveResolver.resolve (replyUpstream noQuestionAnswer) 9 (resolverAt 0) Trace.start
        lowerQuery = Outcome.panic ∧
    worker.run.round asciiLower typeMnemonic examplePack (fun _ => Except.ok lowerQuery)
        (replyUpstream noQuestionAnswer) 9 exampleWorker (resolverAt 0) NewTrie 0 0 lowerPacket
      = Outcome.panic ∧
    noQuestionCname.Question = [] ∧
    GotAnswer noQuestionCname = some false ∧
    FindCname 1 noQuestionCname = Outcome.panic ∧
    recursiveResolver.resolve (replyUpstream noQuestionCname) 9 (resolverAt 0) Trace.start
        lowerQuery = Outcome.panic := by
  refine ⟨by decide, rfl, by decide, rfl, rfl, rfl, by decide, by decide, rfl⟩

end Dnsproxy
